import Mathlib

/-!
# Verification of the spotify-filterer matching and reconciliation engine

Shallow embedding of the pure core of `src/app.py`: title normalization
(`normalize_title`), similarity scoring (`calculate_similarity_score`),
cross-playlist duplicate detection (`find_duplicates_and_warnings`),
internal duplicate detection (`find_internal_duplicates`), the removal-plan
compilation (step 10 of `run_filter`) and the batched removal step
(step 11 of `run_filter`).

External collaborators are modeled as parameters:
* `difflib.SequenceMatcher(None, a, b).ratio()` (used by `fuzzy_title_match`)
  is an abstract function `ratio : String → String → ℚ`;
* the Spotify API's `playlist_remove_all_occurrences_of_items` call is an
  abstract per-batch success oracle `ok : Nat → Bool`.

Python `re` is modeled by a small executable regex engine implementing the
fragment of `re` syntax that the source's patterns use (character classes,
greedy and lazy quantifiers over single-character classes, optional groups,
alternation with left preference, the `$` anchor), with Python's leftmost,
backtracking-order match semantics and `re.sub`'s scan-and-replace loop.
-/

namespace SpotifyFilterer

/-! ## Regex engine (model of the fragment of Python `re` used by app.py) -/

/-- Whitespace characters recognized by `\s` and `str.split()` (ASCII set). -/
def pyWs (c : Char) : Bool :=
  c == ' ' || c == '\t' || c == '\n' || c == '\r' || c == '\x0b' || c == '\x0c'

/-- Regular expressions of the shape used by `normalize_title`'s patterns.
Quantifiers (`*`, `*?`, `+`) only ever apply to single-character classes in
those patterns, so the AST restricts them accordingly; this keeps every
quantifier iteration strictly consuming and the matcher total. -/
inductive Re where
  | eps : Re
  | cls (p : Char → Bool) : Re
  | seq (a b : Re) : Re
  | alt (a b : Re) : Re
  | opt (a : Re) : Re
  | star (p : Char → Bool) : Re
  | starL (p : Char → Bool) : Re
  | plus (p : Char → Bool) : Re
  | eos : Re

/-- Try continuation `k` on `s.drop n` for each `n` in `ns`, first success wins.
The order of `ns` realizes greedy (descending) or lazy (ascending) matching. -/
def tryLens (s : List Char) (k : List Char → Option (List Char)) :
    List Nat → Option (List Char)
  | [] => none
  | n :: rest =>
    match k (s.drop n) with
    | some r => some r
    | none => tryLens s k rest

/-- Backtracking matcher in continuation-passing style.  `mmatch r s k`
matches `r` against a prefix of `s` and calls `k` on the rest; alternatives
are tried in Python's backtracking order (left alternative first, greedy
quantifiers longest first, lazy quantifiers shortest first). -/
def mmatch : Re → List Char → (List Char → Option (List Char)) → Option (List Char)
  | .eps, s, k => k s
  | .cls p, s, k =>
    match s with
    | [] => none
    | c :: rest => if p c then k rest else none
  | .seq a b, s, k => mmatch a s fun s2 => mmatch b s2 k
  | .alt a b, s, k =>
    match mmatch a s k with
    | some r => some r
    | none => mmatch b s k
  | .opt a, s, k =>
    match mmatch a s k with
    | some r => some r
    | none => k s
  | .star p, s, k => tryLens s k (List.range ((s.takeWhile p).length + 1)).reverse
  | .starL p, s, k => tryLens s k (List.range ((s.takeWhile p).length + 1))
  | .plus p, s, k => tryLens s k (((List.range (s.takeWhile p).length).map (· + 1)).reverse)
  | .eos, s, k => if s.isEmpty || s == ['\n'] then k s else none

/-- Match `r` at the start of `s`; returns the suffix after the match chosen
by the backtracking order (Python's match at a fixed position). -/
def matchAt (r : Re) (s : List Char) : Option (List Char) :=
  mmatch r s some

/-- Fueled scan for `re.sub(pattern, '', s)`: at each position try a match;
on success drop the matched span and continue after it, otherwise keep one
character and move on.  Every pattern in the source contains a mandatory
character, so matches always consume at least one character; the fuel
`s.length` therefore always suffices. -/
def subAux (r : Re) : Nat → List Char → List Char
  | _, [] => []
  | 0, s => s
  | fuel + 1, c :: rest =>
    match matchAt r (c :: rest) with
    | some s2 =>
      if s2.length < (c :: rest).length then subAux r fuel s2
      else c :: subAux r fuel rest
    | none => c :: subAux r fuel rest

/-- `re.sub(r, '', s)` for the patterns of `normalize_title`. -/
def reSub (r : Re) (s : List Char) : List Char :=
  subAux r s.length s

/-! ## The patterns of `normalize_title` (app.py lines 519-568)

The title is lowercased before the patterns run, so `re.IGNORECASE` only
matters for the non-ASCII characters in the dash character class.  The
source file literally contains the mojibake characters U+201A, U+00C4,
U+00EC, U+00EE inside its dash classes (`[-‚Äì‚Äî]`); the class below is
exactly that set together with the case variants that `IGNORECASE` adds. -/

/-- `\d` -/
def pyDigit (c : Char) : Bool := '0' ≤ c && c ≤ '9'

/-- `.` (any character except a newline). -/
def dotAny (c : Char) : Bool := c != '\n'

/-- `[^)]` -/
def notRparen (c : Char) : Bool := c != ')'

/-- The dash character class `[-‚Äì‚Äî]` as written (mojibake included) in the
source, closed under `re.IGNORECASE` case variants. -/
def dashClass (c : Char) : Bool :=
  c == '-' || c == '‚' || c == 'Ä' || c == 'ä' || c == 'ì' || c == 'Ì' ||
  c == 'î' || c == 'Î'

/-- A single literal character. -/
def rchar (c : Char) : Re := .cls (fun x => x == c)

/-- A literal word (sequence of literal characters). -/
def rstr (w : String) : Re := w.data.foldr (fun c acc => .seq (rchar c) acc) .eps

/-- Sequence a list of regexes. -/
def rcat (l : List Re) : Re := l.foldr .seq .eps

/-- `\s*` -/
def ws0 : Re := .star pyWs
/-- `\s+` -/
def ws1 : Re := .plus pyWs
/-- `\d*` -/
def dg0 : Re := .star pyDigit
/-- `\d+` -/
def dg1 : Re := .plus pyDigit
/-- `.*` (greedy) -/
def anyG : Re := .star dotAny
/-- `.*?` (lazy) -/
def anyL : Re := .starL dotAny
/-- `[^)]*` -/
def npar0 : Re := .star notRparen
/-- `\(` -/
def lpar : Re := rchar '('
/-- `\)` -/
def rpar : Re := rchar ')'
/-- `"` -/
def dquo : Re := rchar '\"'
/-- The dash class. -/
def dashRe : Re := .cls dashClass

/-- The ordered pattern cascade of `normalize_title` (app.py lines 519-562),
one entry per `patterns` element, in source order. -/
def patternList : List Re :=
  [ -- r'\s*\(remastered\s+album\s+version\)'
    rcat [ws0, lpar, rstr "remastered", ws1, rstr "album", ws1, rstr "version", rpar],
    -- r'\s*\(remastered\s+\d+\)'
    rcat [ws0, lpar, rstr "remastered", ws1, dg1, rpar],
    -- r'\s*\(remaster(ed)?\s*\d*\)'
    rcat [ws0, lpar, rstr "remaster", .opt (rstr "ed"), ws0, dg0, rpar],
    -- r'\s*[-‚Äì‚Äî]\s*remaster(ed)?(\s+\d+)?(\s+album\s+version)?'
    rcat [ws0, dashRe, ws0, rstr "remaster", .opt (rstr "ed"),
      .opt (rcat [ws1, dg1]), .opt (rcat [ws1, rstr "album", ws1, rstr "version"])],
    -- r'\s*[-‚Äì‚Äî]\s*\d+\s*remaster(ed)?'
    rcat [ws0, dashRe, ws0, dg1, ws0, rstr "remaster", .opt (rstr "ed")],
    -- r'\s*\(remaster(ed)?(\s+\d+)?(\s+album\s+version)?\)'
    rcat [ws0, lpar, rstr "remaster", .opt (rstr "ed"),
      .opt (rcat [ws1, dg1]), .opt (rcat [ws1, rstr "album", ws1, rstr "version"]), rpar],
    -- r'\s*\(\d+\s*remaster(ed)?\)'
    rcat [ws0, lpar, dg1, ws0, rstr "remaster", .opt (rstr "ed"), rpar],
    -- r'\s*\(deluxe.*?\)'
    rcat [ws0, lpar, rstr "deluxe", anyL, rpar],
    -- r'\s*\(expanded.*?\)'
    rcat [ws0, lpar, rstr "expanded", anyL, rpar],
    -- r'\s*\(anniversary.*?\)'
    rcat [ws0, lpar, rstr "anniversary", anyL, rpar],
    -- r'\s*\(bonus track.*?\)'
    rcat [ws0, lpar, rstr "bonus track", anyL, rpar],
    -- r'\s*\(album version.*?\)'
    rcat [ws0, lpar, rstr "album version", anyL, rpar],
    -- r'\s*\(original.*?\)'
    rcat [ws0, lpar, rstr "original", anyL, rpar],
    -- r'\s*\(single version.*?\)'
    rcat [ws0, lpar, rstr "single version", anyL, rpar],
    -- r'\s*\(radio edit.*?\)'
    rcat [ws0, lpar, rstr "radio edit", anyL, rpar],
    -- r'\s*\(explicit.*?\)'
    rcat [ws0, lpar, rstr "explicit", anyL, rpar],
    -- r'\s*\(clean.*?\)'
    rcat [ws0, lpar, rstr "clean", anyL, rpar],
    -- r'\s*\(edit\)'
    rcat [ws0, lpar, rstr "edit", rpar],
    -- r'\s*\(re-?recorded.*?\)'
    rcat [ws0, lpar, rstr "re", .opt (rchar '-'), rstr "recorded", anyL, rpar],
    -- r'\s*\(remix.*?\)'
    rcat [ws0, lpar, rstr "remix", anyL, rpar],
    -- r'\s*[-‚Äì‚Äî]\s*remix.*$'
    rcat [ws0, dashRe, ws0, rstr "remix", anyG, .eos],
    -- r'\s*[-‚Äì‚Äî]\s*live.*$'
    rcat [ws0, dashRe, ws0, rstr "live", anyG, .eos],
    -- r'\s*\(live.*?\)'
    rcat [ws0, lpar, rstr "live", anyL, rpar],
    -- r'\s*\(acoustic.*?\)'
    rcat [ws0, lpar, rstr "acoustic", anyL, rpar],
    -- r'\s*[-‚Äì‚Äî]\s*acoustic.*$'
    rcat [ws0, dashRe, ws0, rstr "acoustic", anyG, .eos],
    -- r'\s*[-‚Äì‚Äî]\s*from\s+".*"'
    rcat [ws0, dashRe, ws0, rstr "from", ws1, dquo, anyG, dquo],
    -- r'\s*\(from\s+".*"\)'
    rcat [ws0, lpar, rstr "from", ws1, dquo, anyG, dquo, rpar],
    -- r'\s*\(from\s+.*?\)'
    rcat [ws0, lpar, rstr "from", ws1, anyL, rpar],
    -- r'\s*[-‚Äì‚Äî]\s*mono.*$'
    rcat [ws0, dashRe, ws0, rstr "mono", anyG, .eos],
    -- r'\s*\(mono.*?\)'
    rcat [ws0, lpar, rstr "mono", anyL, rpar],
    -- r'\s*[-‚Äì‚Äî]\s*stereo.*$'
    rcat [ws0, dashRe, ws0, rstr "stereo", anyG, .eos],
    -- r'\s*\(stereo.*?\)'
    rcat [ws0, lpar, rstr "stereo", anyL, rpar],
    -- r'\s*\(super\s+deluxe.*?\)'
    rcat [ws0, lpar, rstr "super", ws1, rstr "deluxe", anyL, rpar],
    -- r'\s*\(special\s+edition.*?\)'
    rcat [ws0, lpar, rstr "special", ws1, rstr "edition", anyL, rpar],
    -- r'\s*\(version\)$'
    rcat [ws0, lpar, rstr "version", rpar, .eos],
    -- r'\s*\([^)]*remaster[^)]*\)'
    rcat [ws0, lpar, npar0, rstr "remaster", npar0, rpar],
    -- r'\s*\([^)]*version\)'
    rcat [ws0, lpar, npar0, rstr "version", rpar],
    -- r'\s*\([^)]*edition\)'
    rcat [ws0, lpar, npar0, rstr "edition", rpar],
    -- r'\s*\([^)]*mix\)'
    rcat [ws0, lpar, npar0, rstr "mix", rpar] ]

/-- `(feat\.?|ft\.?|featuring)` with Python's left-preference alternation. -/
def featAlt : Re :=
  .alt (rcat [rstr "feat", .opt (rchar '.')])
    (.alt (rcat [rstr "ft", .opt (rchar '.')]) (rstr "featuring"))

/-- r'\s*(feat\.?|ft\.?|featuring)\s+.*$' (app.py line 567). -/
def featPat1 : Re := rcat [ws0, featAlt, ws1, anyG, .eos]

/-- r'\s*\((feat\.?|ft\.?|featuring).*?\)' (app.py line 568). -/
def featPat2 : Re := rcat [ws0, lpar, featAlt, anyL, rpar]

/-- `str.lower()` restricted to the alphabet the patterns can see: ASCII
case mapping plus the non-ASCII letters of the mojibake dash class.
Coincides with Python's `str.lower()` on these characters. -/
def pyLower (c : Char) : Char :=
  if c == 'Ä' then 'ä' else if c == 'Ì' then 'ì' else if c == 'Î' then 'î'
  else c.toLower

/-- `str.split()` (split on whitespace runs, discarding empty pieces). -/
def splitWs (s : List Char) : List (List Char) :=
  let p := s.foldr
    (fun c acc =>
      if pyWs c then (if acc.2.isEmpty then acc else (acc.2 :: acc.1, ([] : List Char)))
      else (acc.1, c :: acc.2))
    (([], []) : List (List Char) × List Char)
  if p.2.isEmpty then p.1 else p.2 :: p.1

/-- `normalize_title` (app.py lines 512-572): lowercase, run the pattern
cascade in order, strip featuring clauses, collapse whitespace.
The final `.strip()` is a no-op after `' '.join(title.split())`. -/
def normalize_title (title : String) : String :=
  if title = "" then ""
  else
    let t0 := title.data.map pyLower
    let t1 := patternList.foldl (fun acc r => reSub r acc) t0
    let t2 := reSub featPat1 t1
    let t3 := reSub featPat2 t2
    String.intercalate " " ((splitWs t3).map List.asString)

/-! ## Data model

A Spotify track as used by the matching code: `track['id']`,
`track.get('name', '')`, `track.get('duration_ms')`,
`track.get('artists', [])` and `track.get('external_ids', {}).get('isrc')`
(the `external_ids` dict is flattened into the `isrc` field).  A missing id
is modeled as the empty string, matching the truthiness checks
`track.get('id')` in the source.  -/

/-- One entry of a track's `artists` list: `{id, name}`; ids may be missing. -/
structure Artist where
  id : Option String
  name : String
deriving DecidableEq, Repr

/-- A track record. -/
structure Track where
  id : String
  name : String
  durationMs : Option Int
  artists : List Artist
  isrc : Option String
deriving DecidableEq, Repr

/-- Python truthiness of an optional string (`None` and `''` are falsy). -/
def isTruthy : Option String → Bool
  | none => false
  | some s => s != ""

/-- `get_isrc` (app.py lines 608-611). -/
def get_isrc (track : Track) : Option String :=
  track.isrc

/-! ## Similarity scoring

`fuzzy_title_match` (app.py lines 575-577) delegates entirely to
`difflib.SequenceMatcher(None, t1, t2).ratio()`, a standard-library routine
external to this repository; it is modeled as an abstract function
`ratio : String → String → ℚ` taken as a parameter by everything that
scores titles.  Python's float arithmetic in `duration_within_threshold`
is modeled by exact rational arithmetic. -/

/-- `duration_within_threshold` (app.py lines 580-587).  `not duration`
is true for `None` and for `0`.  The float comparison
`abs(d1-d2) <= max(10000, max(d1,d2) * 0.03)` is exact-rational arithmetic
with `0.03 = 3/100`; it is stated here scaled by 100 so that it lives in
`ℤ` (the theorem `duration_within_threshold_spec` below recovers the
literal `3 / 100` formula over `ℚ`). -/
def duration_within_threshold (duration1 duration2 : Option Int) : Bool :=
  match duration1, duration2 with
  | some d1, some d2 =>
    if d1 == 0 || d2 == 0 then false
    else
      -- threshold = max(10000, max_duration * 0.03), scaled by 100
      decide ((100 : ℤ) * ((d1 - d2).natAbs : ℤ) ≤ max 1000000 (3 * max d1 d2))
  | _, _ => false

/-- The set `{a['id'] for a in artists if a.get('id')}` (truthy ids only). -/
def truthyArtistIds (artists : List Artist) : Finset String :=
  (artists.filterMap fun a =>
    match a.id with
    | some i => if i = "" then none else some i
    | none => none).toFinset

/-- `artists_overlap` (app.py lines 590-596). -/
def artists_overlap (artists1 artists2 : List Artist) : Bool :=
  if artists1.isEmpty || artists2.isEmpty then false
  else decide (0 < (truthyArtistIds artists1 ∩ truthyArtistIds artists2).card)

/-- `artists_exact_match` (app.py lines 599-605). -/
def artists_exact_match (artists1 artists2 : List Artist) : Bool :=
  if artists1.isEmpty || artists2.isEmpty then false
  else decide (truthyArtistIds artists1 = truthyArtistIds artists2 ∧
    0 < (truthyArtistIds artists1).card)

/-- Structured form of the reason strings produced by
`calculate_similarity_score`; each constructor stands for one of the
literal strings of the source, carrying the interpolated numeric data
(`"Same ISRC (identical recording)"`, `"Exact title match"`,
`"Similar title (X%)"`, `"Similar duration (±Ys)"`, `"Shared artist(s)"`,
`"Same artist(s)"`). -/
inductive Reason where
  | sameIsrc : Reason
  | exactTitle : Reason
  | similarTitle (similarity : ℚ) : Reason
  | similarDuration (diffSec : ℚ) : Reason
  | sharedArtists : Reason
  | sameArtists : Reason
deriving DecidableEq, Repr

/-- `abs(dur1 - dur2) / 1000 if dur1 and dur2 else 0` (app.py line 649). -/
def durDiffSec (duration1 duration2 : Option Int) : ℚ :=
  match duration1, duration2 with
  | some d1, some d2 => if d1 == 0 || d2 == 0 then 0 else |(d1 : ℚ) - (d2 : ℚ)| / 1000
  | _, _ => 0

/-- The title comparison block of `calculate_similarity_score` (app.py
lines 628-642): mutually exclusive tiers — +40 for equal non-empty
normalized titles, else +25 when the title similarity is ≥ 0.9, else 0. -/
def titleTier (ratio : String → String → ℚ) (track1 track2 : Track) :
    Nat × List Reason :=
  let normTitle1 := normalize_title track1.name
  let normTitle2 := normalize_title track2.name
  if normTitle1 ≠ "" ∧ normTitle2 ≠ "" then
    if normTitle1 = normTitle2 then (40, [.exactTitle])
    else if mkRat 9 10 ≤ ratio normTitle1 normTitle2 then
      (25, [.similarTitle (ratio normTitle1 normTitle2)])
    else (0, [])
  else (0, [])

/-- The duration comparison block of `calculate_similarity_score` (app.py
lines 644-650): +30 when the durations are within threshold. -/
def durationSignal (track1 track2 : Track) : Nat × List Reason :=
  if duration_within_threshold track1.durationMs track2.durationMs then
    (30, [.similarDuration (durDiffSec track1.durationMs track2.durationMs)])
  else (0, [])

/-- The artist comparison block of `calculate_similarity_score` (app.py
lines 652-660): +30 for overlapping artist id sets, upgraded to +40 (and
the reason replaced, not appended) when the sets are equal and non-empty. -/
def artistSignal (track1 track2 : Track) : Nat × List Reason :=
  if artists_overlap track1.artists track2.artists then
    if artists_exact_match track1.artists track2.artists then (40, [.sameArtists])
    else (30, [.sharedArtists])
  else (0, [])

/-- `calculate_similarity_score` (app.py lines 614-662): an ISRC match
returns 100 immediately; otherwise the three independent signal blocks are
summed and their reasons concatenated in source order. -/
def calculate_similarity_score (ratio : String → String → ℚ) (track1 track2 : Track) :
    Nat × List Reason :=
  let isrc1 := get_isrc track1
  let isrc2 := get_isrc track2
  if isTruthy isrc1 && isTruthy isrc2 && isrc1 == isrc2 then
    (100, [.sameIsrc])
  else
    ((titleTier ratio track1 track2).1 + (durationSignal track1 track2).1 +
      (artistSignal track1 track2).1,
     (titleTier ratio track1 track2).2 ++ (durationSignal track1 track2).2 ++
      (artistSignal track1 track2).2)

/-! ## Cross-playlist duplicate detection (`find_duplicates_and_warnings`) -/

/-- A `(target_track, matching_track, score, reasons)` tuple. -/
abbrev MatchEntry := Track × Track × Nat × List Reason

/-- Insertion-ordered association-list update used to model the Python dict
of lists: append `t` to the bucket of key `k`, creating the bucket at the
end when the key is new. -/
def addToIdx (idx : List (String × List Track)) (k : String) (t : Track) :
    List (String × List Track) :=
  if (idx.find? fun p => p.1 == k).isSome then
    idx.map fun p => if p.1 == k then (p.1, p.2 ++ [t]) else p
  else idx ++ [(k, [t])]

/-- Bucket lookup in the association list. -/
def lookupIdx (idx : List (String × List Track)) (k : String) : Option (List Track) :=
  (idx.find? fun p => p.1 == k).map (·.2)

/-- `filter_by_title` (app.py lines 677-683): buckets of tracks keyed by
normalized title, skipping tracks whose normalized title is empty. -/
def buildTitleIndex (tracks : List Track) : List (String × List Track) :=
  tracks.foldl
    (fun idx track =>
      let nt := normalize_title track.name
      if nt = "" then idx else addToIdx idx nt track)
    []

/-- `filter_by_isrc` (app.py lines 686-690) is a dict whose assignments
overwrite, so a lookup returns the **last** filter track carrying the isrc;
falsy isrcs are never stored. -/
def filterByIsrcLookup (tracks : List Track) (isrc : String) : Option Track :=
  (tracks.filter fun t => isTruthy (get_isrc t) && get_isrc t == some isrc).getLast?

/-- The guard `if target_isrc and target_isrc in filter_by_isrc` together
with the lookup `filter_by_isrc[target_isrc]` (app.py lines 708-709). -/
def isrcIndexHit (ftracks : List Track) (targetIsrc : Option String) : Option Track :=
  match targetIsrc with
  | some k => if k = "" then none else filterByIsrcLookup ftracks k
  | none => none

/-- Candidate gathering (app.py lines 714-726): the exact normalized-title
bucket followed by every bucket whose key has title similarity ≥ 0.85
against the target's normalized title, in index insertion order. -/
def gatherCandidates (ratio : String → String → ℚ) (idx : List (String × List Track))
    (targetNorm : String) : List Track :=
  (match lookupIdx idx targetNorm with
    | some bucket => bucket
    | none => []) ++
  (idx.map fun p =>
    if p.1 ≠ targetNorm ∧ mkRat 85 100 ≤ ratio targetNorm p.1 then p.2 else []).flatten

/-- The candidate scoring fold (app.py lines 729-736): state is
`(best_match with its reasons, best_score)`, starting at `(None, 0)`;
a candidate with the target's id is skipped, and the best match is replaced
only on a strictly greater score. -/
def foldBestCandidate (ratio : String → String → ℚ) (target : Track) :
    List Track → Option (Track × List Reason) × Nat → Option (Track × List Reason) × Nat
  | [], st => st
  | c :: rest, (bm, bs) =>
    if c.id == target.id then foldBestCandidate ratio target rest (bm, bs)
    else
      let sr := calculate_similarity_score ratio target c
      if bs < sr.1 then foldBestCandidate ratio target rest (some (c, sr.2), sr.1)
      else foldBestCandidate ratio target rest (bm, bs)

/-- Best-match selection for one target track (app.py lines 700-736):
the ISRC index short-circuits with score 100, otherwise candidates from the
title index are scored. -/
def bestMatchFor (ratio : String → String → ℚ) (ftracks : List Track)
    (idx : List (String × List Track)) (target : Track) :
    Option (Track × List Reason) × Nat :=
  match isrcIndexHit ftracks (get_isrc target) with
  | some m => (some (m, [Reason.sameIsrc]), 100)
  | none =>
    foldBestCandidate ratio target
      (gatherCandidates ratio idx (normalize_title target.name)) (none, 0)

/-- The per-target loop of `find_duplicates_and_warnings` (app.py lines
694-744): skip empty-id targets and targets already matched as duplicates;
classify the best match at score ≥ 80 as a duplicate (marking the target id
seen) and at score ≥ 40 as a warning. -/
def fdawLoop (ratio : String → String → ℚ) (ftracks : List Track)
    (idx : List (String × List Track)) :
    List Track → Finset String → List MatchEntry × List MatchEntry
  | [], _ => ([], [])
  | t :: rest, seen =>
    if t.id = "" then fdawLoop ratio ftracks idx rest seen
    else if t.id ∈ seen then fdawLoop ratio ftracks idx rest seen
    else
      match bestMatchFor ratio ftracks idx t with
      | (some mr, s) =>
        if 80 ≤ s then
          let p := fdawLoop ratio ftracks idx rest (insert t.id seen)
          ((t, mr.1, s, mr.2) :: p.1, p.2)
        else if 40 ≤ s then
          let p := fdawLoop ratio ftracks idx rest seen
          (p.1, (t, mr.1, s, mr.2) :: p.2)
        else fdawLoop ratio ftracks idx rest seen
      | (none, _) => fdawLoop ratio ftracks idx rest seen

/-- `find_duplicates_and_warnings` (app.py lines 665-745). -/
def find_duplicates_and_warnings (ratio : String → String → ℚ)
    (target_tracks filter_tracks : List Track) : List MatchEntry × List MatchEntry :=
  fdawLoop ratio filter_tracks (buildTitleIndex filter_tracks) target_tracks ∅

/-! ## Internal duplicate detection (`find_internal_duplicates`) -/

/-- `by_isrc` of `find_internal_duplicates` (app.py lines 767-771): buckets
of tracks keyed by (truthy) isrc, in insertion order, values appended. -/
def buildIsrcIndex (tracks : List Track) : List (String × List Track) :=
  tracks.foldl
    (fun idx track =>
      match get_isrc track with
      | some i => if i = "" then idx else addToIdx idx i track
      | none => idx)
    []

/-- Internal-duplicate state: the accumulated `duplicates` list and the
`dominated_ids` set. -/
abbrev InternalState := List MatchEntry × Finset String

/-- The inner loop over one ISRC group (app.py lines 777-781): the first
group member is the original; every later member not yet dominated becomes
a duplicate of it with score 100. -/
def isrcGroupLoop (original : Track) : List Track → InternalState → InternalState
  | [], st => st
  | d :: ds, (res, dom) =>
    if d.id ∈ dom then isrcGroupLoop original ds (res, dom)
    else isrcGroupLoop original ds
      (res ++ [(d, original, 100, [Reason.sameIsrc])], insert d.id dom)

/-- The ISRC phase (app.py lines 774-781), iterating groups in index order
and skipping groups of size ≤ 1. -/
def isrcPhase : List (String × List Track) → InternalState → InternalState
  | [], st => st
  | (_, group) :: rest, st =>
    if group.length ≤ 1 then isrcPhase rest st
    else
      match group with
      | [] => isrcPhase rest st
      | original :: dups => isrcPhase rest (isrcGroupLoop original dups st)

/-- The inner pair loop (app.py lines 792-802): `track2` ranges over the
bucket elements after `track1`; dominated or same-id pairs are skipped, and
a score ≥ 80 marks `track2` as a duplicate of `track1`. -/
def pairInner (ratio : String → String → ℚ) (t1 : Track) :
    List Track → InternalState → InternalState
  | [], st => st
  | t2 :: ts, (res, dom) =>
    if t2.id ∈ dom then pairInner ratio t1 ts (res, dom)
    else if t1.id = t2.id then pairInner ratio t1 ts (res, dom)
    else
      let sr := calculate_similarity_score ratio t1 t2
      if 80 ≤ sr.1 then
        pairInner ratio t1 ts (res ++ [(t2, t1, sr.1, sr.2)], insert t2.id dom)
      else pairInner ratio t1 ts (res, dom)

/-- The outer pair loop (app.py lines 789-802): each `track1` not already
dominated is compared against the rest of its title bucket. -/
def pairOuter (ratio : String → String → ℚ) :
    List Track → InternalState → InternalState
  | [], st => st
  | t1 :: restTracks, (res, dom) =>
    if t1.id ∈ dom then pairOuter ratio restTracks (res, dom)
    else pairOuter ratio restTracks (pairInner ratio t1 restTracks (res, dom))

/-- The title phase (app.py lines 784-802), skipping buckets of size ≤ 1. -/
def titlePhase (ratio : String → String → ℚ) :
    List (String × List Track) → InternalState → InternalState
  | [], st => st
  | (_, group) :: rest, st =>
    if group.length ≤ 1 then titlePhase ratio rest st
    else titlePhase ratio rest (pairOuter ratio group st)

/-- `find_internal_duplicates` (app.py lines 748-804).  Tracks without an
id are skipped when the indexes are built (`if not track or not
track.get('id'): continue`), which is modeled by filtering them first. -/
def find_internal_duplicates (ratio : String → String → ℚ) (tracks : List Track) :
    List MatchEntry :=
  let valid := tracks.filter fun t => t.id ≠ ""
  let byTitle := buildTitleIndex valid
  let byIsrc := buildIsrcIndex valid
  (titlePhase ratio byTitle (isrcPhase byIsrc ([], ∅))).1

/-! ## The `run_filter` pipeline (app.py lines 221-350)

The I/O layer supplies: the fetched target tracks (each kept only when
`track` and `track.get('id')` are truthy, lines 179-182), the set of
unavailable ids computed from the market-aware re-fetch (lines 199-219),
and the merged filter tracks (lines 234-270; `all_filter_song_ids` is by
construction the set of ids of `all_filter_tracks`). -/

/-- Step 4 separation (app.py lines 221-232): one pass over the target
tracks producing `unavailable_tracks` (deduplicated by id via
`seen_unavailable_ids`) and `available_target_tracks` (with multiplicity). -/
def availSplit (unavailableIds : Finset String) :
    List Track → Finset String → List Track × List Track
  | [], _ => ([], [])
  | t :: rest, seen =>
    if t.id ∈ unavailableIds then
      if t.id ∈ seen then availSplit unavailableIds rest seen
      else
        let p := availSplit unavailableIds rest (insert t.id seen)
        (t :: p.1, p.2)
    else
      let p := availSplit unavailableIds rest seen
      (p.1, t :: p.2)

/-- Step 6 (app.py lines 272-280): exact id matches against the filter id
set, deduplicated by `exact_match_ids`.  The code stores
`{'track': track, 'reason': 'Exact match in filter playlist'}`; the
constant reason is dropped here. -/
def exactMatchLoop (filterIds : Finset String) :
    List Track → Finset String → List Track
  | [], _ => []
  | t :: rest, seen =>
    if t.id ∈ filterIds then
      if t.id ∈ seen then exactMatchLoop filterIds rest seen
      else t :: exactMatchLoop filterIds rest (insert t.id seen)
    else exactMatchLoop filterIds rest seen

/-- Step 7 (app.py lines 283-288): first occurrence of each id. -/
def dedupById : List Track → Finset String → List Track
  | [], _ => []
  | t :: rest, seen =>
    if t.id ∈ seen then dedupById rest seen
    else t :: dedupById rest (insert t.id seen)

/-- The removal category of a `removal_details` entry. -/
inductive Category where
  | unavailable : Category
  | exact : Category
  | fuzzy : Category
  | internal : Category
deriving DecidableEq, Repr

/-- One `removal_details` entry (app.py step 10).  The code stores the
rendered display strings (`name`, `artists`, `reason`) together with
`score` and `category`; the strings are derived from the track, which is
kept here in structured form instead. -/
structure Detail where
  track : Track
  category : Category
  score : Nat
deriving DecidableEq, Repr

/-- `sorted(l, key=lambda x: x[2], reverse=True)` (app.py lines 328, 340):
stable descending sort by score. -/
def sortByScoreDesc (l : List MatchEntry) : List MatchEntry :=
  l.mergeSort fun a b => decide (b.2.2.1 ≤ a.2.2.1)

/-- Step 10 (app.py lines 302-350): compile `removal_details` in source
order (unavailable, exact, fuzzy sorted by score descending, internal
sorted by score descending). -/
def removalDetails (unavailableTracks exactMatches : List Track)
    (fuzzyDuplicates internalDuplicates : List MatchEntry) : List Detail :=
  (unavailableTracks.map fun t => Detail.mk t .unavailable 0) ++
  (exactMatches.map fun t => Detail.mk t .exact 100) ++
  ((sortByScoreDesc fuzzyDuplicates).map fun e => Detail.mk e.1 .fuzzy e.2.2.1) ++
  ((sortByScoreDesc internalDuplicates).map fun e => Detail.mk e.1 .internal e.2.2.1)

/-- Step 10's `tracks_to_remove_ids` (app.py lines 303-350): the set built
by successive `add` calls, one per compiled detail entry. -/
def tracksToRemoveIds (unavailableTracks exactMatches : List Track)
    (fuzzyDuplicates internalDuplicates : List MatchEntry) : Finset String :=
  ((removalDetails unavailableTracks exactMatches fuzzyDuplicates
    internalDuplicates).map fun d => d.track.id).foldl (fun s i => insert i s) ∅

/-- The results of the pure part of one `run_filter` run. -/
structure RunResult where
  unavailableTracks : List Track
  availableTargetTracks : List Track
  exactMatches : List Track
  fuzzyDuplicates : List MatchEntry
  crossWarnings : List MatchEntry
  internalDuplicates : List MatchEntry
  details : List Detail
  removeIds : Finset String

/-- `all_filter_song_ids` (app.py lines 234-270): every append to
`all_filter_tracks` also adds the track's id to the set, so the set is
exactly the ids of the merged filter list. -/
def allFilterSongIds (allFilterTracks : List Track) : Finset String :=
  (allFilterTracks.map Track.id).toFinset

/-- `unavailable_tracks` (app.py lines 221-232). -/
def unavailableTracksOf (unavailableIds : Finset String) (targetTracks : List Track) :
    List Track :=
  (availSplit unavailableIds targetTracks ∅).1

/-- `available_target_tracks` (app.py lines 221-232). -/
def availableTargetTracksOf (unavailableIds : Finset String) (targetTracks : List Track) :
    List Track :=
  (availSplit unavailableIds targetTracks ∅).2

/-- `exact_matches` (app.py lines 272-280); the constant reason string is
dropped, each entry being the matched track. -/
def exactMatchesOf (unavailableIds : Finset String) (targetTracks allFilterTracks : List Track) :
    List Track :=
  exactMatchLoop (allFilterSongIds allFilterTracks)
    (availableTargetTracksOf unavailableIds targetTracks) ∅

/-- `exact_match_ids` (app.py lines 273-280): the ids of the recorded
exact matches. -/
def exactMatchIdsOf (unavailableIds : Finset String)
    (targetTracks allFilterTracks : List Track) : Finset String :=
  ((exactMatchesOf unavailableIds targetTracks allFilterTracks).map Track.id).toFinset

/-- `target_unique` (app.py lines 283-288). -/
def targetUniqueOf (unavailableIds : Finset String) (targetTracks : List Track) :
    List Track :=
  dedupById (availableTargetTracksOf unavailableIds targetTracks) ∅

/-- `tracks_for_fuzzy` (app.py line 293). -/
def tracksForFuzzyOf (unavailableIds : Finset String)
    (targetTracks allFilterTracks : List Track) : List Track :=
  (targetUniqueOf unavailableIds targetTracks).filter
    fun t => t.id ∉ exactMatchIdsOf unavailableIds targetTracks allFilterTracks

/-- `fuzzy_duplicates` (app.py line 294). -/
def fuzzyDuplicatesOf (ratio : String → String → ℚ) (unavailableIds : Finset String)
    (targetTracks allFilterTracks : List Track) : List MatchEntry :=
  (find_duplicates_and_warnings ratio
    (tracksForFuzzyOf unavailableIds targetTracks allFilterTracks) allFilterTracks).1

/-- `cross_warnings` (app.py line 294). -/
def crossWarningsOf (ratio : String → String → ℚ) (unavailableIds : Finset String)
    (targetTracks allFilterTracks : List Track) : List MatchEntry :=
  (find_duplicates_and_warnings ratio
    (tracksForFuzzyOf unavailableIds targetTracks allFilterTracks) allFilterTracks).2

/-- `fuzzy_dup_ids` (app.py line 296). -/
def fuzzyDupIdsOf (ratio : String → String → ℚ) (unavailableIds : Finset String)
    (targetTracks allFilterTracks : List Track) : Finset String :=
  ((fuzzyDuplicatesOf ratio unavailableIds targetTracks allFilterTracks).map
    fun e => e.1.id).toFinset

/-- `remaining_after_fuzzy` (app.py line 297). -/
def remainingAfterFuzzyOf (ratio : String → String → ℚ) (unavailableIds : Finset String)
    (targetTracks allFilterTracks : List Track) : List Track :=
  (tracksForFuzzyOf unavailableIds targetTracks allFilterTracks).filter
    fun t => t.id ∉ fuzzyDupIdsOf ratio unavailableIds targetTracks allFilterTracks

/-- `internal_duplicates` (app.py line 300). -/
def internalDuplicatesOf (ratio : String → String → ℚ) (unavailableIds : Finset String)
    (targetTracks allFilterTracks : List Track) : List MatchEntry :=
  find_internal_duplicates ratio
    (remainingAfterFuzzyOf ratio unavailableIds targetTracks allFilterTracks)

/-- Steps 4-10 of `run_filter` (app.py lines 221-350) as a pure function of
the fetched target tracks, the unavailable-id set, and the merged filter
tracks (whose id set is `all_filter_song_ids`). -/
def runPlan (ratio : String → String → ℚ) (targetTracks : List Track)
    (unavailableIds : Finset String) (allFilterTracks : List Track) : RunResult :=
  { unavailableTracks := unavailableTracksOf unavailableIds targetTracks
    availableTargetTracks := availableTargetTracksOf unavailableIds targetTracks
    exactMatches := exactMatchesOf unavailableIds targetTracks allFilterTracks
    fuzzyDuplicates := fuzzyDuplicatesOf ratio unavailableIds targetTracks allFilterTracks
    crossWarnings := crossWarningsOf ratio unavailableIds targetTracks allFilterTracks
    internalDuplicates := internalDuplicatesOf ratio unavailableIds targetTracks
      allFilterTracks
    details := removalDetails (unavailableTracksOf unavailableIds targetTracks)
      (exactMatchesOf unavailableIds targetTracks allFilterTracks)
      (fuzzyDuplicatesOf ratio unavailableIds targetTracks allFilterTracks)
      (internalDuplicatesOf ratio unavailableIds targetTracks allFilterTracks)
    removeIds := tracksToRemoveIds (unavailableTracksOf unavailableIds targetTracks)
      (exactMatchesOf unavailableIds targetTracks allFilterTracks)
      (fuzzyDuplicatesOf ratio unavailableIds targetTracks allFilterTracks)
      (internalDuplicatesOf ratio unavailableIds targetTracks allFilterTracks) }

/-! ## The removal step (app.py step 11, lines 352-397) -/

/-- `target_id_counts` (app.py lines 188-192): multiplicity of an id in the
originally fetched target playlist. -/
def target_id_counts (targetIds : List String) (tid : String) : Nat :=
  targetIds.count tid

/-- `target_id_counts.get(tid, 1)` (app.py line 394): the dict holds
exactly the ids of positive multiplicity, so a missing key defaults to 1. -/
def getCountDefault (targetIds : List String) (tid : String) : Nat :=
  if target_id_counts targetIds tid = 0 then 1 else target_id_counts targetIds tid

/-- Fueled worker for `chunks100`; the fuel `l.length` always suffices
because each step drops at least one element. -/
def chunks100Aux : Nat → List String → List (List String)
  | _, [] => []
  | 0, l => [l]
  | fuel + 1, c :: rest =>
    (c :: rest).take 100 :: chunks100Aux fuel ((c :: rest).drop 100)

/-- The batching `tracks_list[i:i+100]` for `i in range(0, len, 100)`
(app.py lines 387-388). -/
def chunks100 (l : List String) : List (List String) :=
  chunks100Aux l.length l

/-- Result of the removal loop: `actual_removals`, `failed_removals`, and
the per-batch log, abstracted to `(batch index, call succeeded)` pairs
(the code appends one formatted string per batch in both branches). -/
structure RemovalOutcome where
  actual : Nat
  failed : List String
  log : List (Nat × Bool)
deriving DecidableEq, Repr

/-- One iteration of the removal loop (app.py lines 388-397), on the batch
`bi.2` with batch index `bi.1`: a successful call adds
`target_id_counts.get(tid, 1)` per batch id to `actual_removals`, a failed
call extends `failed_removals` with the whole batch; both append one log
entry. -/
def removalStep (targetIds : List String) (ok : Nat → Bool) (res : RemovalOutcome)
    (bi : Nat × List String) : RemovalOutcome :=
  if ok bi.1 then
    { res with
      actual := res.actual + (bi.2.map (getCountDefault targetIds)).sum
      log := res.log ++ [(bi.1, true)] }
  else
    { res with
      failed := res.failed ++ bi.2
      log := res.log ++ [(bi.1, false)] }

/-- The removal loop (app.py lines 384-397).  The external
`playlist_remove_all_occurrences_of_items` call is modeled by the success
oracle `ok : Nat → Bool` indexed by batch number; the loop continues after
a failed batch. -/
def runRemoval (targetIds : List String) (ok : Nat → Bool) (ids : List String) :
    RemovalOutcome :=
  (chunks100 ids).enum.foldl (removalStep targetIds ok) ⟨0, [], []⟩

/-- Track used by C7's counterexample: it appears (same id) in both the
target and the filter list, carrying an ISRC. -/
def sharedTrack : Track := ⟨"a", "same title", none, [], some "ISRC1"⟩

/-- The values of `difflib.SequenceMatcher(None, a, b).ratio()` — the
library routine behind `fuzzy_title_match` — on the title pair
`"qwertyuiopabcb"` / `"qwertyuiopbcab"`, as measured from the library:
12 matched characters one way and 13 the other out of 14 + 14, i.e.
`2·12/28 = 12/14` and `2·13/28 = 13/14` (difflib's greedy matching-block
algorithm is order-dependent).  Pairs not reached by the evaluation are
mapped to 0. -/
def seqMatcherRatioAt (a b : String) : ℚ :=
  if a = "qwertyuiopabcb" ∧ b = "qwertyuiopbcab" then mkRat 12 14
  else if a = "qwertyuiopbcab" ∧ b = "qwertyuiopabcb" then mkRat 13 14
  else 0

/-- The invariant threaded through `find_internal_duplicates`: accumulated
duplicate ids are pairwise distinct, all dominated, and every removed track
comes from the index universe. -/
def InternalInv (tracks : List Track) (st : InternalState) : Prop :=
  (st.1.map fun e => e.1.id).Nodup ∧ ∀ e ∈ st.1, e.1.id ∈ st.2 ∧ e.1 ∈ tracks

/-! ## Numeric threshold spec lemmas -/

/-- The scaled-integer comparison inside `duration_within_threshold` is
exactly the source's `abs(d1-d2) <= max(10000, max(d1,d2) * 0.03)` read
with exact rational arithmetic. -/
theorem duration_within_threshold_spec (d1 d2 : Int) :
    ((100 : ℤ) * ((d1 - d2).natAbs : ℤ) ≤ max 1000000 (3 * max d1 d2)) ↔
    (|(d1 : ℚ) - (d2 : ℚ)| ≤ max 10000 (max ((d1 : ℚ)) ((d2 : ℚ)) * 3 / 100)) := by
  have h100 : (0 : ℚ) < 100 := by norm_num
  rw [← @Int.cast_le ℚ]
  push_cast
  rw [le_max_iff, le_max_iff]
  constructor
  · rintro (h | h)
    · left
      linarith
    · right
      rw [le_div_iff₀ h100]
      linarith
  · rintro (h | h)
    · left
      linarith
    · right
      rw [le_div_iff₀ h100] at h
      linarith

/-- The title-tier threshold `mkRat 9 10` is the source's `0.9`. -/
theorem titleTier_threshold_spec : mkRat 9 10 = (9 : ℚ) / 10 := by
  norm_num [Rat.mkRat_eq_div]

/-- The candidate-selection threshold `mkRat 85 100` is the source's
`0.85`. -/
theorem gatherCandidates_threshold_spec : mkRat 85 100 = (85 : ℚ) / 100 := by
  norm_num [Rat.mkRat_eq_div]

/-- The fuel is irrelevant as long as it is at least the list length. -/
theorem chunks100Aux_congr (f1 : Nat) :
    ∀ (f2 : Nat) (l : List String), l.length ≤ f1 → l.length ≤ f2 →
      chunks100Aux f1 l = chunks100Aux f2 l := by
  induction f1 with
  | zero =>
    intro f2 l h1 h2
    match l with
    | [] => cases f2 <;> rfl
    | c :: rest => simp at h1
  | succ f1 ih =>
    intro f2 l h1 h2
    match l with
    | [] => cases f2 <;> rfl
    | c :: rest =>
      match f2 with
      | 0 => simp at h2
      | f2 + 1 =>
        simp only [chunks100Aux]
        congr 1
        apply ih
        · simp only [List.length_drop, List.length_cons] at *
          omega
        · simp only [List.length_drop, List.length_cons] at *
          omega

/-- Unfolding equation for `chunks100` on a non-empty list. -/
theorem chunks100_cons (c : String) (rest : List String) :
    chunks100 (c :: rest) = (c :: rest).take 100 :: chunks100 ((c :: rest).drop 100) := by
  show chunks100Aux (c :: rest).length (c :: rest) = _
  simp only [List.length_cons, chunks100Aux]
  congr 1
  apply chunks100Aux_congr
  · simp only [List.length_drop, List.length_cons]
    omega
  · exact le_rfl

/-! ## Symmetry of the individual signals -/

theorem duration_within_threshold_comm (d1 d2 : Option Int) :
    duration_within_threshold d1 d2 = duration_within_threshold d2 d1 := by
  match d1, d2 with
  | none, none => rfl
  | none, some _ => rfl
  | some _, none => rfl
  | some a, some b =>
    have hsub : (a - b).natAbs = (b - a).natAbs := by
      rw [← neg_sub b a, Int.natAbs_neg]
    simp only [duration_within_threshold]
    rw [Bool.or_comm (a == 0) (b == 0), hsub, max_comm a b]

theorem artists_overlap_comm (a1 a2 : List Artist) :
    artists_overlap a1 a2 = artists_overlap a2 a1 := by
  unfold artists_overlap
  rw [Bool.or_comm, Finset.inter_comm]

theorem artists_exact_match_comm (a1 a2 : List Artist) :
    artists_exact_match a1 a2 = artists_exact_match a2 a1 := by
  unfold artists_exact_match
  rw [Bool.or_comm]
  by_cases h : (a2.isEmpty || a1.isEmpty) = true
  · rw [if_pos h, if_pos h]
  · rw [if_neg h, if_neg h]
    apply decide_eq_decide.mpr
    constructor
    · rintro ⟨he, hc⟩
      exact ⟨he.symm, he ▸ hc⟩
    · rintro ⟨he, hc⟩
      exact ⟨he.symm, he ▸ hc⟩

theorem titleTier_symm (ratio : String → String → ℚ)
    (hsym : ∀ a b : String, ratio a b = ratio b a) (t1 t2 : Track) :
    (titleTier ratio t1 t2).1 = (titleTier ratio t2 t1).1 := by
  unfold titleTier
  by_cases h1 : normalize_title t1.name = ""
  · by_cases h2 : normalize_title t2.name = "" <;> simp [h1, h2]
  · by_cases h2 : normalize_title t2.name = ""
    · simp [h1, h2]
    · by_cases h12 : normalize_title t1.name = normalize_title t2.name
      · simp [h1, h2, h12]
      · have h21 : ¬normalize_title t2.name = normalize_title t1.name := fun e => h12 e.symm
        have hr := hsym (normalize_title t2.name) (normalize_title t1.name)
        simp only [ne_eq, h1, h2, h12, h21, hr, not_false_eq_true, and_self, if_true,
          if_false]

theorem durationSignal_symm (t1 t2 : Track) :
    (durationSignal t1 t2).1 = (durationSignal t2 t1).1 := by
  unfold durationSignal
  rw [duration_within_threshold_comm]
  by_cases h : duration_within_threshold t2.durationMs t1.durationMs = true <;> simp [h]

theorem artistSignal_symm (t1 t2 : Track) :
    (artistSignal t1 t2).1 = (artistSignal t2 t1).1 := by
  unfold artistSignal
  rw [artists_overlap_comm, artists_exact_match_comm]

/-- The ISRC fast-path guard is symmetric. -/
theorem isrcGuard_comm (t1 t2 : Track) :
    (isTruthy (get_isrc t1) && isTruthy (get_isrc t2) && (get_isrc t1 == get_isrc t2)) =
    (isTruthy (get_isrc t2) && isTruthy (get_isrc t1) && (get_isrc t2 == get_isrc t1)) := by
  have hbeq : (get_isrc t1 == get_isrc t2) = (get_isrc t2 == get_isrc t1) := by
    apply Bool.eq_iff_iff.mpr
    simp only [beq_iff_eq]
    exact eq_comm
  rw [Bool.and_comm (isTruthy (get_isrc t1)) (isTruthy (get_isrc t2)), hbeq]

/-! ## Claim theorems: scoring -/

/-- The score component of `calculate_similarity_score` is symmetric
provided the underlying title-similarity ratio is symmetric: the ISRC
guard, the title tiers, the duration signal and the artist signals are all
invariant under swapping the two tracks.  This localises any asymmetry of
the score to the library ratio; `difflib`'s `SequenceMatcher.ratio` is in
fact asymmetric, so the score itself is not symmetric (see
`similarity_score_asymmetric`). -/
theorem calculate_similarity_score_symm (ratio : String → String → ℚ)
    (hsym : ∀ a b : String, ratio a b = ratio b a) (t1 t2 : Track) :
    (calculate_similarity_score ratio t1 t2).1 = (calculate_similarity_score ratio t2 t1).1 := by
  simp only [calculate_similarity_score]
  rw [isrcGuard_comm]
  by_cases h : (isTruthy (get_isrc t2) && isTruthy (get_isrc t1) &&
      (get_isrc t2 == get_isrc t1)) = true
  · simp [h]
  · simp only [Bool.not_eq_true] at h
    simp only [h, Bool.false_eq_true, if_false]
    rw [titleTier_symm ratio hsym t1 t2, durationSignal_symm t1 t2, artistSignal_symm t1 t2]

/-- The conditional symmetry lemma instantiated at a concrete symmetric
ratio and concrete tracks. -/
theorem calculate_similarity_score_symm_witness :
    (calculate_similarity_score (fun _ _ => 0)
      ⟨"i1", "Song A", some 200000, [⟨some "a1", "A"⟩], none⟩
      ⟨"i2", "Song A (Remastered 2009)", some 201000, [⟨some "a1", "A"⟩], some "X"⟩).1 =
    (calculate_similarity_score (fun _ _ => 0)
      ⟨"i2", "Song A (Remastered 2009)", some 201000, [⟨some "a1", "A"⟩], some "X"⟩
      ⟨"i1", "Song A", some 200000, [⟨some "a1", "A"⟩], none⟩).1 :=
  calculate_similarity_score_symm (fun _ _ => 0) (fun _ _ => rfl) _ _

/-- C5.  The similarity score is NOT symmetric: `fuzzy_title_match`
delegates to `difflib.SequenceMatcher.ratio`, whose greedy matching-block
algorithm is order-dependent.  On the titles `"qwertyuiopabcb"` and
`"qwertyuiopbcab"` — both fixed points of `normalize_title`, so the
asymmetry cannot come from normalization — the library returns `12/14`
one way and `13/14` the other (values in `seqMatcherRatioAt`), which
straddle the `0.9` similar-title tier: the program scores 0 in one
direction and 25 in the other. -/
theorem similarity_score_asymmetric :
    normalize_title "qwertyuiopabcb" = "qwertyuiopabcb" ∧
    normalize_title "qwertyuiopbcab" = "qwertyuiopbcab" ∧
    (calculate_similarity_score seqMatcherRatioAt
      ⟨"a", "qwertyuiopabcb", none, [], none⟩
      ⟨"b", "qwertyuiopbcab", none, [], none⟩).1 = 0 ∧
    (calculate_similarity_score seqMatcherRatioAt
      ⟨"b", "qwertyuiopbcab", none, [], none⟩
      ⟨"a", "qwertyuiopabcb", none, [], none⟩).1 = 25 ∧
    (calculate_similarity_score seqMatcherRatioAt
      ⟨"a", "qwertyuiopabcb", none, [], none⟩
      ⟨"b", "qwertyuiopbcab", none, [], none⟩).1 ≠
    (calculate_similarity_score seqMatcherRatioAt
      ⟨"b", "qwertyuiopbcab", none, [], none⟩
      ⟨"a", "qwertyuiopabcb", none, [], none⟩).1 := by
  refine ⟨by decide, by decide, by decide, by decide, by decide⟩

/-- C8.  Two tracks carrying the same non-empty ISRC score 100 immediately,
regardless of all other fields. -/
theorem isrc_match_scores_100 (ratio : String → String → ℚ) (t1 t2 : Track) (s : String)
    (h1 : get_isrc t1 = some s) (h2 : get_isrc t2 = some s) (hs : s ≠ "") :
    calculate_similarity_score ratio t1 t2 = (100, [Reason.sameIsrc]) := by
  unfold calculate_similarity_score
  rw [h1, h2]
  simp [isTruthy, hs]

/-- Witness for C8: same ISRC, wildly different titles, durations and
artists. -/
theorem isrc_match_scores_100_witness :
    calculate_similarity_score (fun _ _ => 0)
      ⟨"a", "Completely Different", some 100000, [⟨some "x", "X"⟩], some "USUM71703861"⟩
      ⟨"b", "Nothing Alike At All", some 999999, [⟨some "y", "Y"⟩], some "USUM71703861"⟩ =
    (100, [Reason.sameIsrc]) :=
  isrc_match_scores_100 (fun _ _ => 0) _ _ "USUM71703861" rfl rfl (by decide)

/-- Helper for the duration claim: `duration_within_threshold` is `False`
whenever either argument is falsy (`None` or `0`). -/
theorem duration_falsy_fails (d : Option Int) :
    duration_within_threshold none d = false ∧
    duration_within_threshold d none = false ∧
    duration_within_threshold (some 0) d = false ∧
    duration_within_threshold d (some 0) = false := by
  match d with
  | none => exact ⟨rfl, rfl, rfl, rfl⟩
  | some a =>
    refine ⟨rfl, rfl, ?_, ?_⟩ <;> simp [duration_within_threshold]

/-- C10.  When either track's duration is missing or 0, the duration signal
contributes nothing: the score (and the whole result) is that of the same
tracks with their durations erased — even for two tracks that both carry
duration 0, whose difference 0 is within the documented tolerance
`max(10000, 0.03·max)`. -/
theorem zero_duration_no_points (ratio : String → String → ℚ) (t1 t2 : Track)
    (h : t1.durationMs = none ∨ t1.durationMs = some 0 ∨
      t2.durationMs = none ∨ t2.durationMs = some 0) :
    duration_within_threshold t1.durationMs t2.durationMs = false ∧
    (durationSignal t1 t2).1 = 0 ∧
    calculate_similarity_score ratio t1 t2 =
      calculate_similarity_score ratio { t1 with durationMs := none }
        { t2 with durationMs := none } ∧
    |(0 : ℚ) - 0| ≤ max 10000 ((max (0 : Int) 0 : ℚ) * 3 / 100) := by
  have hfalse : duration_within_threshold t1.durationMs t2.durationMs = false := by
    rcases h with h | h | h | h <;> rw [h]
    · exact (duration_falsy_fails _).1
    · exact (duration_falsy_fails _).2.2.1
    · exact (duration_falsy_fails _).2.1
    · exact (duration_falsy_fails _).2.2.2
  refine ⟨hfalse, ?_, ?_, by norm_num⟩
  · simp [durationSignal, hfalse]
  · unfold calculate_similarity_score
    have hsigL : durationSignal t1 t2 = (0, []) := by
      simp [durationSignal, hfalse]
    have hsigR : durationSignal { t1 with durationMs := none }
        { t2 with durationMs := none } = (0, []) := by
      simp [durationSignal, duration_within_threshold]
    have htt : titleTier ratio { t1 with durationMs := none } { t2 with durationMs := none } =
        titleTier ratio t1 t2 := rfl
    have hart : artistSignal { t1 with durationMs := none } { t2 with durationMs := none } =
        artistSignal t1 t2 := rfl
    simp only [get_isrc, hsigL, hsigR, htt, hart]

/-- Witness for C10 at two tracks that both have duration 0. -/
theorem zero_duration_no_points_witness :
    duration_within_threshold (Track.durationMs ⟨"a", "t", some 0, [], none⟩)
      (Track.durationMs ⟨"b", "t", some 0, [], none⟩) = false ∧
    (durationSignal ⟨"a", "t", some 0, [], none⟩ ⟨"b", "t", some 0, [], none⟩).1 = 0 ∧
    calculate_similarity_score (fun _ _ => 0) ⟨"a", "t", some 0, [], none⟩
        ⟨"b", "t", some 0, [], none⟩ =
      calculate_similarity_score (fun _ _ => 0) ⟨"a", "t", none, [], none⟩
        ⟨"b", "t", none, [], none⟩ ∧
    |(0 : ℚ) - 0| ≤ max 10000 ((max (0 : Int) 0 : ℚ) * 3 / 100) :=
  zero_duration_no_points (fun _ _ => 0) ⟨"a", "t", some 0, [], none⟩
    ⟨"b", "t", some 0, [], none⟩ (Or.inr (Or.inl rfl))

/-- C3, counterexample.  Two distinct tracks with equal normalized titles,
equal durations and identical artist id sets score 40 + 30 + 40 = 110,
exceeding the claimed upper bound of 100. -/
theorem similarity_score_exceeds_100 :
    (calculate_similarity_score (fun _ _ => 0)
      ⟨"a", "Song A", some 200000, [⟨some "ar1", "A"⟩], none⟩
      ⟨"b", "Song A", some 200000, [⟨some "ar1", "A"⟩], none⟩).1 = 110 ∧
    ¬((calculate_similarity_score (fun _ _ => 0)
      ⟨"a", "Song A", some 200000, [⟨some "ar1", "A"⟩], none⟩
      ⟨"b", "Song A", some 200000, [⟨some "ar1", "A"⟩], none⟩).1 ≤ 100) := by
  constructor <;> decide

/-- C3, amended.  The score of `calculate_similarity_score` is a natural
number bounded by 110 (not 100): 40 title + 30 duration + 40 same-artists,
and 100 on the ISRC path. -/
theorem similarity_score_le_110 (ratio : String → String → ℚ) (t1 t2 : Track) :
    (calculate_similarity_score ratio t1 t2).1 ≤ 110 := by
  simp only [calculate_similarity_score]
  split
  · norm_num
  · have h1 : (titleTier ratio t1 t2).1 ≤ 40 := by
      simp only [titleTier]
      split
      · split
        · norm_num
        · split <;> norm_num
      · norm_num
    have h2 : (durationSignal t1 t2).1 ≤ 30 := by
      unfold durationSignal
      split <;> norm_num
    have h3 : (artistSignal t1 t2).1 ≤ 40 := by
      unfold artistSignal
      split
      · split <;> norm_num
      · norm_num
    dsimp only
    omega

/-! ## Claim theorem: normalize_title idempotence (C4) -/

/-- C4, failing input.  `normalize_title` is not idempotent: on
`"song (li(feat.x)ve)"` the parenthetical-feat removal (which runs after
every version pattern) splices the surrounding text into `"(live)"`, so a
second application strips further: one application gives
`"song (live)"`, two give `"song"`. -/
theorem normalize_title_not_idempotent :
    normalize_title "song (li(feat.x)ve)" = "song (live)" ∧
    normalize_title (normalize_title "song (li(feat.x)ve)") = "song" ∧
    normalize_title (normalize_title "song (li(feat.x)ve)") ≠
      normalize_title "song (li(feat.x)ve)" := by
  refine ⟨by decide, by decide, by decide⟩

/-- The documented suffix classes are stripped and those normalizations are
stable under a second application (sanity complement to C4: the failure is
specific to inputs whose first pass creates a new removable pattern). -/
theorem normalize_title_examples :
    normalize_title "Song (Remastered 2009)" = "song" ∧
    normalize_title "Song A (Remastered 2009)" = "song a" ∧
    normalize_title (normalize_title "Song (Remastered 2009)") = "song" ∧
    normalize_title "" = "" := by
  refine ⟨by decide, by decide, by decide, rfl⟩

/-! ## Claim theorems: the removal step (C9, C1) -/

/-- Concatenating the batches gives back the id list. -/
theorem chunks100_flatten (ids : List String) : (chunks100 ids).flatten = ids := by
  have H : ∀ (n : Nat) (l : List String), l.length ≤ n → (chunks100 l).flatten = l := by
    intro n
    induction n with
    | zero =>
      intro l h
      match l with
      | [] => rfl
      | c :: rest => simp at h
    | succ n ih =>
      intro l h
      match l with
      | [] => rfl
      | c :: rest =>
        rw [chunks100_cons]
        simp only [List.flatten_cons]
        rw [ih _ (by simp only [List.length_drop, List.length_cons] at *; omega)]
        exact List.take_append_drop 100 (c :: rest)
  exact H ids.length ids le_rfl

/-- Every batch has at most 100 ids. -/
theorem chunks100_le_100 (ids : List String) : ∀ b ∈ chunks100 ids, b.length ≤ 100 := by
  have H : ∀ (n : Nat) (l : List String), l.length ≤ n →
      ∀ b ∈ chunks100 l, b.length ≤ 100 := by
    intro n
    induction n with
    | zero =>
      intro l h b hb
      match l with
      | [] => simp [chunks100, chunks100Aux] at hb
      | c :: rest => simp at h
    | succ n ih =>
      intro l h b hb
      match l with
      | [] => simp [chunks100, chunks100Aux] at hb
      | c :: rest =>
        rw [chunks100_cons] at hb
        rcases List.mem_cons.mp hb with hb | hb
        · subst hb
          simp [List.length_take]
        · exact ih _ (by simp only [List.length_drop, List.length_cons] at *; omega) b hb
  exact H ids.length ids le_rfl

/-- A non-empty list of at most 100 ids is a single batch. -/
theorem chunks100_of_short (l : List String) (hne : l ≠ []) (hle : l.length ≤ 100) :
    chunks100 l = [l] := by
  match l with
  | [] => exact absurd rfl hne
  | c :: rest =>
    rw [chunks100_cons]
    rw [List.take_of_length_le hle, List.drop_eq_nil_of_le hle]
    rfl

/-- Closed form of the removal fold: successful batches contribute their
multiplicity sums to `actual`, failed batches contribute their ids to
`failed`, and every batch leaves exactly one log entry. -/
theorem removalStep_foldl (targetIds : List String) (ok : Nat → Bool)
    (bs : List (Nat × List String)) :
    ∀ res : RemovalOutcome,
      bs.foldl (removalStep targetIds ok) res =
        ⟨res.actual + ((bs.filter fun bi => ok bi.1).map
            fun bi => (bi.2.map (getCountDefault targetIds)).sum).sum,
         res.failed ++ ((bs.filter fun bi => !(ok bi.1)).map (fun bi => bi.2)).flatten,
         res.log ++ bs.map fun bi => (bi.1, ok bi.1)⟩ := by
  induction bs with
  | nil => intro res; simp
  | cons b bs ih =>
    intro res
    rw [List.foldl_cons, ih]
    by_cases h : ok b.1 = true <;>
      simp [removalStep, h, List.filter_cons, Nat.add_assoc, List.append_assoc]

/-- C9.  The removal step partitions the id list into consecutive batches
of at most 100 (a 150-id list yields exactly batches of 100 and 50); a
failed batch contributes all of its ids to the failed list while every
other batch is still processed, and the log records each batch's outcome
separately. -/
theorem removal_batching (targetIds : List String) (ok : Nat → Bool) (ids : List String) :
    (∀ b ∈ chunks100 ids, b.length ≤ 100) ∧
    (chunks100 ids).flatten = ids ∧
    (runRemoval targetIds ok ids).failed =
      (((chunks100 ids).enum.filter fun bi => !(ok bi.1)).map (fun bi => bi.2)).flatten ∧
    (runRemoval targetIds ok ids).log =
      (chunks100 ids).enum.map (fun bi => (bi.1, ok bi.1)) ∧
    (ids.length = 150 → (chunks100 ids).map List.length = [100, 50]) := by
  refine ⟨chunks100_le_100 ids, chunks100_flatten ids, ?_, ?_, ?_⟩
  · rw [runRemoval, removalStep_foldl]
    simp
  · rw [runRemoval, removalStep_foldl]
    simp
  · intro h150
    match ids with
    | [] => simp at h150
    | c :: rest =>
      rw [chunks100_cons]
      have hdrop : ((c :: rest).drop 100).length = 50 := by
        simp only [List.length_drop]
        omega
      have hne : (c :: rest).drop 100 ≠ [] := by
        intro he
        rw [he] at hdrop
        simp at hdrop
      rw [chunks100_of_short _ hne (by omega)]
      simp only [List.map_cons, List.map_nil, List.length_take, hdrop]
      rw [h150]
      norm_num

set_option maxRecDepth 100000 in
/-- Witness for C9: 150 ids batch as [100, 50]; with the first batch's call
failing and the second succeeding, the log records both outcomes. -/
theorem removal_batching_witness :
    ((∀ b ∈ chunks100 ((List.range 150).map fun n => "t" ++ toString n), b.length ≤ 100) ∧
     (chunks100 ((List.range 150).map fun n => "t" ++ toString n)).flatten =
       (List.range 150).map (fun n => "t" ++ toString n) ∧
     (runRemoval [] (fun i => i != 0) ((List.range 150).map fun n => "t" ++ toString n)).failed =
       (((chunks100 ((List.range 150).map fun n => "t" ++ toString n)).enum.filter
         fun bi => !((fun i => i != 0) bi.1)).map (fun bi => bi.2)).flatten ∧
     (runRemoval [] (fun i => i != 0) ((List.range 150).map fun n => "t" ++ toString n)).log =
       (chunks100 ((List.range 150).map fun n => "t" ++ toString n)).enum.map
         (fun bi => (bi.1, (fun i => i != 0) bi.1)) ∧
     (((List.range 150).map fun n => "t" ++ toString n).length = 150 →
       (chunks100 ((List.range 150).map fun n => "t" ++ toString n)).map List.length =
         [100, 50])) ∧
    (chunks100 ((List.range 150).map fun n => "t" ++ toString n)).map List.length =
      [100, 50] ∧
    (runRemoval [] (fun i => i != 0) ((List.range 150).map fun n => "t" ++ toString n)).log =
      [(0, false), (1, true)] :=
  ⟨removal_batching [] (fun i => i != 0) ((List.range 150).map fun n => "t" ++ toString n),
   (removal_batching [] (fun i => i != 0)
     ((List.range 150).map fun n => "t" ++ toString n)).2.2.2.2 (by decide),
   by decide⟩

/-- C1.  When every batch's external call succeeds, `actual_removals`
equals the sum over the removal id set of each id's multiplicity in the
originally fetched target playlist; an id that occurs three times
contributes 3, not 1. -/
theorem actual_removals_eq_multiplicity (targetIds : List String) (ok : Nat → Bool)
    (ids : List String) (hok : ∀ i, ok i = true)
    (hsub : ∀ tid ∈ ids, tid ∈ targetIds) (hnd : ids.Nodup) :
    (runRemoval targetIds ok ids).actual =
      ∑ tid ∈ ids.toFinset, target_id_counts targetIds tid := by
  rw [runRemoval, removalStep_foldl]
  have hfilter : ((chunks100 ids).enum.filter fun bi => ok bi.1) = (chunks100 ids).enum :=
    List.filter_eq_self.mpr fun bi _ => hok bi.1
  simp only [hfilter, Nat.zero_add]
  have hmapsnd : ((chunks100 ids).enum.map fun bi => (bi.2.map (getCountDefault targetIds)).sum) =
      ((chunks100 ids).map fun b => (b.map (getCountDefault targetIds)).sum) := by
    rw [show (fun bi : Nat × List String => (bi.2.map (getCountDefault targetIds)).sum) =
        ((fun b : List String => (b.map (getCountDefault targetIds)).sum) ∘ Prod.snd) from rfl,
      ← List.map_map, List.enum_map_snd]
  rw [hmapsnd]
  rw [show (fun b : List String => (b.map (getCountDefault targetIds)).sum) =
      (List.sum ∘ List.map (getCountDefault targetIds)) from rfl]
  rw [← List.map_map, ← List.sum_flatten, ← List.map_flatten, chunks100_flatten]
  have hcongr : ids.map (getCountDefault targetIds) =
      ids.map (target_id_counts targetIds) := by
    apply List.map_congr_left
    intro tid htid
    have : target_id_counts targetIds tid ≠ 0 := by
      simp only [target_id_counts, ne_eq, List.count_eq_zero]
      intro hniel
      exact hniel (hsub tid htid)
    simp [getCountDefault, this]
  rw [hcongr, ← List.sum_toFinset _ hnd]

/-- Witness for C1: removal set {"x", "y"} against a target where "x"
occurs three times and "y" once gives 4 actual removals. -/
theorem actual_removals_eq_multiplicity_witness :
    (runRemoval ["x", "x", "y", "x"] (fun _ => true) ["x", "y"]).actual =
      (∑ tid ∈ (["x", "y"] : List String).toFinset,
        target_id_counts ["x", "x", "y", "x"] tid) ∧
    (runRemoval ["x", "x", "y", "x"] (fun _ => true) ["x", "y"]).actual = 4 ∧
    target_id_counts ["x", "x", "y", "x"] "x" = 3 :=
  ⟨actual_removals_eq_multiplicity ["x", "x", "y", "x"] (fun _ => true) ["x", "y"]
    (fun _ => rfl) (by decide) (by decide), by decide, by decide⟩

/-! ## Claim theorems: cross-playlist classification (C6, C7) -/

/-- Elements delivered by `getLast?` are members of the list. -/
theorem mem_of_getLast?_eq_some {α : Type} {l : List α} {a : α}
    (h : l.getLast? = some a) : a ∈ l := by
  obtain ⟨hne, heq⟩ := List.mem_getLast?_eq_getLast (show a ∈ l.getLast? by simp [h])
  rw [heq]
  exact List.getLast_mem hne

/-- Classification invariant of the matching loop: duplicates carry a score
≥ 80 and their target track comes from the input; warnings carry a score in
[40, 80) and their target track comes from the input. -/
theorem fdawLoop_spec (ratio : String → String → ℚ) (ftracks : List Track)
    (idx : List (String × List Track)) :
    ∀ (ts : List Track) (seen : Finset String),
      (∀ e ∈ (fdawLoop ratio ftracks idx ts seen).1, 80 ≤ e.2.2.1 ∧ e.1 ∈ ts) ∧
      (∀ e ∈ (fdawLoop ratio ftracks idx ts seen).2,
        40 ≤ e.2.2.1 ∧ e.2.2.1 < 80 ∧ e.1 ∈ ts) := by
  intro ts
  induction ts with
  | nil => intro seen; constructor <;> intro e he <;> simp [fdawLoop] at he
  | cons t rest ih =>
    intro seen
    by_cases ht : t.id = ""
    · simp only [fdawLoop, ht, if_true]
      refine ⟨fun e he => ?_, fun e he => ?_⟩
      · have := (ih seen).1 e he
        exact ⟨this.1, List.mem_cons_of_mem t this.2⟩
      · have := (ih seen).2 e he
        exact ⟨this.1, this.2.1, List.mem_cons_of_mem t this.2.2⟩
    · by_cases hs : t.id ∈ seen
      · simp only [fdawLoop, ht, hs, if_false, if_true]
        refine ⟨fun e he => ?_, fun e he => ?_⟩
        · have := (ih seen).1 e he
          exact ⟨this.1, List.mem_cons_of_mem t this.2⟩
        · have := (ih seen).2 e he
          exact ⟨this.1, this.2.1, List.mem_cons_of_mem t this.2.2⟩
      · rcases hbm : bestMatchFor ratio ftracks idx t with ⟨bm, s⟩
        match bm with
        | some mr =>
          by_cases h80 : 80 ≤ s
          · simp only [fdawLoop, ht, hs, hbm, h80, if_false, if_true]
            refine ⟨fun e he => ?_, fun e he => ?_⟩
            · rcases List.mem_cons.mp he with he | he
              · subst he
                exact ⟨h80, List.mem_cons_self t rest⟩
              · have := (ih (insert t.id seen)).1 e he
                exact ⟨this.1, List.mem_cons_of_mem t this.2⟩
            · have := (ih (insert t.id seen)).2 e he
              exact ⟨this.1, this.2.1, List.mem_cons_of_mem t this.2.2⟩
          · by_cases h40 : 40 ≤ s
            · simp only [fdawLoop, ht, hs, hbm, h80, h40, if_false, if_true]
              refine ⟨fun e he => ?_, fun e he => ?_⟩
              · have := (ih seen).1 e he
                exact ⟨this.1, List.mem_cons_of_mem t this.2⟩
              · rcases List.mem_cons.mp he with he | he
                · subst he
                  exact ⟨h40, show s < 80 by omega, List.mem_cons_self t rest⟩
                · have := (ih seen).2 e he
                  exact ⟨this.1, this.2.1, List.mem_cons_of_mem t this.2.2⟩
            · simp only [fdawLoop, ht, hs, hbm, h80, h40, if_false]
              refine ⟨fun e he => ?_, fun e he => ?_⟩
              · have := (ih seen).1 e he
                exact ⟨this.1, List.mem_cons_of_mem t this.2⟩
              · have := (ih seen).2 e he
                exact ⟨this.1, this.2.1, List.mem_cons_of_mem t this.2.2⟩
        | none =>
          simp only [fdawLoop, ht, hs, hbm, if_false]
          refine ⟨fun e he => ?_, fun e he => ?_⟩
          · have := (ih seen).1 e he
            exact ⟨this.1, List.mem_cons_of_mem t this.2⟩
          · have := (ih seen).2 e he
            exact ⟨this.1, this.2.1, List.mem_cons_of_mem t this.2.2⟩

/-- On a target list without repeated ids, duplicate target ids are
distinct, and no id is both a duplicate and a warning. -/
theorem fdawLoop_nodup_disjoint (ratio : String → String → ℚ) (ftracks : List Track)
    (idx : List (String × List Track)) :
    ∀ (ts : List Track) (seen : Finset String), (ts.map Track.id).Nodup →
      (((fdawLoop ratio ftracks idx ts seen).1.map fun e => e.1.id).Nodup ∧
       ∀ e ∈ (fdawLoop ratio ftracks idx ts seen).1,
         ∀ e2 ∈ (fdawLoop ratio ftracks idx ts seen).2, e.1.id ≠ e2.1.id) := by
  intro ts
  induction ts with
  | nil =>
    intro seen hh
    refine ⟨by simp [fdawLoop], ?_⟩
    intro e he
    simp [fdawLoop] at he
  | cons t rest ih =>
    intro seen hnd
    have hnd2 : t.id ∉ rest.map Track.id ∧ (rest.map Track.id).Nodup := by
      rw [List.map_cons, List.nodup_cons] at hnd
      exact hnd
    have hhd := hnd2.1
    have htl := hnd2.2
    have hmemid : ∀ seen2 e, e ∈ (fdawLoop ratio ftracks idx rest seen2).1 →
        e.1.id ∈ rest.map Track.id := fun seen2 e he =>
      List.mem_map_of_mem Track.id ((fdawLoop_spec ratio ftracks idx rest seen2).1 e he).2
    have hmemid2 : ∀ seen2 e, e ∈ (fdawLoop ratio ftracks idx rest seen2).2 →
        e.1.id ∈ rest.map Track.id := fun seen2 e he =>
      List.mem_map_of_mem Track.id
        ((fdawLoop_spec ratio ftracks idx rest seen2).2 e he).2.2
    by_cases ht : t.id = ""
    · simp only [fdawLoop, ht, if_true]
      exact ih seen htl
    · by_cases hs : t.id ∈ seen
      · simp only [fdawLoop, ht, hs, if_false, if_true]
        exact ih seen htl
      · rcases hbm : bestMatchFor ratio ftracks idx t with ⟨bm, s⟩
        match bm with
        | some mr =>
          by_cases h80 : 80 ≤ s
          · simp only [fdawLoop, ht, hs, hbm, h80, if_false, if_true]
            constructor
            · rw [List.map_cons, List.nodup_cons]
              refine ⟨fun hmem => ?_, (ih (insert t.id seen) htl).1⟩
              rcases List.mem_map.mp hmem with ⟨e, he, heq⟩
              exact hhd (heq ▸ hmemid _ e he)
            · intro e he e2 he2
              rcases List.mem_cons.mp he with he | he
              · subst he
                intro heq
                exact hhd (heq ▸ hmemid2 _ e2 he2)
              · exact (ih (insert t.id seen) htl).2 e he e2 he2
          · by_cases h40 : 40 ≤ s
            · simp only [fdawLoop, ht, hs, hbm, h80, h40, if_false, if_true]
              constructor
              · exact (ih seen htl).1
              · intro e he e2 he2
                rcases List.mem_cons.mp he2 with he2 | he2
                · subst he2
                  intro heq
                  exact hhd (heq ▸ hmemid _ e he)
                · exact (ih seen htl).2 e he e2 he2
            · simp only [fdawLoop, ht, hs, hbm, h80, h40, if_false]
              exact ih seen htl
        | none =>
          simp only [fdawLoop, ht, hs, hbm, if_false]
          exact ih seen htl

/-- C6.  Every duplicate produced by `find_duplicates_and_warnings` has
score ≥ 80, every warning has score in [40, 80), and (for target lists
without repeated ids, as produced by the pipeline) no target track
classified as a duplicate also appears as a warning. -/
theorem find_duplicates_classification (ratio : String → String → ℚ)
    (targets filters : List Track) (hnd : (targets.map Track.id).Nodup) :
    (∀ e ∈ (find_duplicates_and_warnings ratio targets filters).1, 80 ≤ e.2.2.1) ∧
    (∀ e ∈ (find_duplicates_and_warnings ratio targets filters).2,
      40 ≤ e.2.2.1 ∧ e.2.2.1 < 80) ∧
    (∀ e ∈ (find_duplicates_and_warnings ratio targets filters).1,
      ∀ e2 ∈ (find_duplicates_and_warnings ratio targets filters).2,
        e.1.id ≠ e2.1.id) := by
  have hspec := fdawLoop_spec ratio filters (buildTitleIndex filters) targets ∅
  have hdisj := fdawLoop_nodup_disjoint ratio filters (buildTitleIndex filters) targets ∅ hnd
  exact ⟨fun e he => (hspec.1 e he).1,
    fun e he => ⟨(hspec.2 e he).1, (hspec.2 e he).2.1⟩, hdisj.2⟩

/-- Witness for C6: a concrete run producing one duplicate (score 110) and
one warning (score 40). -/
theorem find_duplicates_classification_witness :
    (∀ e ∈ (find_duplicates_and_warnings (fun _ _ => 0)
        [⟨"t1", "aa", some 200000, [⟨some "a1", "A"⟩], none⟩,
         ⟨"t2", "bb", none, [], none⟩]
        [⟨"f1", "aa", some 200000, [⟨some "a1", "A"⟩], none⟩,
         ⟨"f2", "bb", none, [], none⟩]).1, 80 ≤ e.2.2.1) ∧
    (∀ e ∈ (find_duplicates_and_warnings (fun _ _ => 0)
        [⟨"t1", "aa", some 200000, [⟨some "a1", "A"⟩], none⟩,
         ⟨"t2", "bb", none, [], none⟩]
        [⟨"f1", "aa", some 200000, [⟨some "a1", "A"⟩], none⟩,
         ⟨"f2", "bb", none, [], none⟩]).2, 40 ≤ e.2.2.1 ∧ e.2.2.1 < 80) ∧
    (∀ e ∈ (find_duplicates_and_warnings (fun _ _ => 0)
        [⟨"t1", "aa", some 200000, [⟨some "a1", "A"⟩], none⟩,
         ⟨"t2", "bb", none, [], none⟩]
        [⟨"f1", "aa", some 200000, [⟨some "a1", "A"⟩], none⟩,
         ⟨"f2", "bb", none, [], none⟩]).1,
      ∀ e2 ∈ (find_duplicates_and_warnings (fun _ _ => 0)
        [⟨"t1", "aa", some 200000, [⟨some "a1", "A"⟩], none⟩,
         ⟨"t2", "bb", none, [], none⟩]
        [⟨"f1", "aa", some 200000, [⟨some "a1", "A"⟩], none⟩,
         ⟨"f2", "bb", none, [], none⟩]).2, e.1.id ≠ e2.1.id) :=
  find_duplicates_classification (fun _ _ => 0)
    [⟨"t1", "aa", some 200000, [⟨some "a1", "A"⟩], none⟩, ⟨"t2", "bb", none, [], none⟩]
    [⟨"f1", "aa", some 200000, [⟨some "a1", "A"⟩], none⟩, ⟨"f2", "bb", none, [], none⟩]
    (by decide)

/-- The witness scenario for C6 really produces one duplicate and one
warning (score 110 and score 40 for targets t1 and t2). -/
theorem find_duplicates_classification_witness_run :
    ((find_duplicates_and_warnings (fun _ _ => 0)
        [⟨"t1", "aa", some 200000, [⟨some "a1", "A"⟩], none⟩,
         ⟨"t2", "bb", none, [], none⟩]
        [⟨"f1", "aa", some 200000, [⟨some "a1", "A"⟩], none⟩,
         ⟨"f2", "bb", none, [], none⟩]).1.map fun e => (e.1.id, e.2.1.id, e.2.2.1)) =
      [("t1", "f1", 110)] ∧
    ((find_duplicates_and_warnings (fun _ _ => 0)
        [⟨"t1", "aa", some 200000, [⟨some "a1", "A"⟩], none⟩,
         ⟨"t2", "bb", none, [], none⟩]
        [⟨"f1", "aa", some 200000, [⟨some "a1", "A"⟩], none⟩,
         ⟨"f2", "bb", none, [], none⟩]).2.map fun e => (e.1.id, e.2.1.id, e.2.2.1)) =
      [("t2", "f2", 40)] := by
  constructor <;> decide

/-- C7, counterexample.  The ISRC fast path has no same-id exclusion: when
the very same track (same id) sits in both lists, it is matched against
itself and reported as a duplicate whose matched id equals the target id. -/
theorem find_duplicates_same_id_match :
    (find_duplicates_and_warnings (fun _ _ => 0) [sharedTrack] [sharedTrack]).1 =
      [(sharedTrack, sharedTrack, 100, [Reason.sameIsrc])] ∧
    ¬(∀ e ∈ (find_duplicates_and_warnings (fun _ _ => 0) [sharedTrack] [sharedTrack]).1,
        e.2.1.id ≠ e.1.id) := by
  refine ⟨by decide, fun hall => ?_⟩
  exact hall (sharedTrack, sharedTrack, 100, [Reason.sameIsrc]) (by decide) rfl

/-- Transfer of membership along `foldBestCandidate`: a best match either
was already the incoming state or is one of the candidates. -/
theorem foldBestCandidate_mem (ratio : String → String → ℚ) (target : Track) :
    ∀ (cands : List Track) (bm : Option (Track × List Reason)) (bs : Nat)
      (mr : Track × List Reason) (s : Nat),
      foldBestCandidate ratio target cands (bm, bs) = (some mr, s) →
      bm = some mr ∨ mr.1 ∈ cands := by
  intro cands
  induction cands with
  | nil =>
    intro bm bs mr s h
    simp only [foldBestCandidate] at h
    exact Or.inl (congrArg Prod.fst h)
  | cons c rest ih =>
    intro bm bs mr s h
    simp only [foldBestCandidate] at h
    by_cases hid : (c.id == target.id) = true
    · rw [if_pos hid] at h
      rcases ih bm bs mr s h with h2 | h2
      · exact Or.inl h2
      · exact Or.inr (List.mem_cons_of_mem c h2)
    · rw [if_neg hid] at h
      by_cases hlt : bs < (calculate_similarity_score ratio target c).1
      · rw [if_pos hlt] at h
        rcases ih _ _ mr s h with h2 | h2
        · have hmrc : (c, (calculate_similarity_score ratio target c).2) = mr :=
            Option.some.inj h2
          refine Or.inr ?_
          rw [← hmrc]
          exact List.mem_cons_self c rest
        · exact Or.inr (List.mem_cons_of_mem c h2)
      · rw [if_neg hlt] at h
        rcases ih bm bs mr s h with h2 | h2
        · exact Or.inl h2
        · exact Or.inr (List.mem_cons_of_mem c h2)

/-- Bucket contents after an `addToIdx` insertion come from the old index
or are the inserted track. -/
theorem addToIdx_mem (idx : List (String × List Track)) (k : String) (t : Track) :
    ∀ p ∈ addToIdx idx k t, ∀ x ∈ p.2, (∃ q ∈ idx, x ∈ q.2) ∨ x = t := by
  intro p hp x hx
  unfold addToIdx at hp
  by_cases hfind : ((idx.find? fun q => q.1 == k).isSome) = true
  · rw [if_pos hfind] at hp
    rcases List.mem_map.mp hp with ⟨q, hq, hqp⟩
    by_cases hk : (q.1 == k) = true
    · rw [if_pos hk] at hqp
      subst hqp
      rcases List.mem_append.mp hx with hx | hx
      · exact Or.inl ⟨q, hq, hx⟩
      · exact Or.inr (List.mem_singleton.mp hx)
    · rw [if_neg hk] at hqp
      subst hqp
      exact Or.inl ⟨q, hq, hx⟩
  · rw [if_neg hfind] at hp
    rcases List.mem_append.mp hp with hp | hp
    · exact Or.inl ⟨p, hp, hx⟩
    · rw [List.mem_singleton.mp hp] at hx
      exact Or.inr (List.mem_singleton.mp hx)

/-- Every track in a `filter_by_title` bucket comes from the indexed
list. -/
theorem buildTitleIndex_mem (tracks : List Track) :
    ∀ p ∈ buildTitleIndex tracks, ∀ x ∈ p.2, x ∈ tracks := by
  have H : ∀ (l : List Track) (idx0 : List (String × List Track))
      (P : Track → Prop),
      (∀ p ∈ idx0, ∀ x ∈ p.2, P x) → (∀ t ∈ l, P t) →
      ∀ p ∈ l.foldl (fun idx track =>
          let nt := normalize_title track.name
          if nt = "" then idx else addToIdx idx nt track) idx0,
        ∀ x ∈ p.2, P x := by
    intro l
    induction l with
    | nil => intro idx0 P h0 _ p hp x hx; exact h0 p hp x hx
    | cons t rest ih =>
      intro idx0 P h0 hl p hp x hx
      rw [List.foldl_cons] at hp
      refine ih _ P ?_ (fun u hu => hl u (List.mem_cons_of_mem t hu)) p hp x hx
      intro q hq y hy
      by_cases hnt : normalize_title t.name = ""
      · simp only [hnt, if_true] at hq
        exact h0 q hq y hy
      · simp only [hnt, if_false] at hq
        rcases addToIdx_mem idx0 _ t q hq y hy with ⟨r, hr, hyr⟩ | hyt
        · exact h0 r hr y hyr
        · exact hyt ▸ hl t (List.mem_cons_self t rest)
  intro p hp x hx
  exact H tracks [] (· ∈ tracks) (by simp) (fun t ht => ht) p hp x hx

/-- The ISRC-index lookup returns a track from the filter list. -/
theorem isrcIndexHit_mem (ftracks : List Track) (oi : Option String) (m : Track)
    (h : isrcIndexHit ftracks oi = some m) : m ∈ ftracks := by
  match oi with
  | none => simp [isrcIndexHit] at h
  | some k =>
    simp only [isrcIndexHit] at h
    by_cases hk : k = ""
    · simp [hk] at h
    · rw [if_neg hk] at h
      exact List.mem_of_mem_filter (mem_of_getLast?_eq_some h)

/-- Candidates gathered from the title index lie in some bucket. -/
theorem gatherCandidates_mem (ratio : String → String → ℚ)
    (idx : List (String × List Track)) (tn : String) (x : Track)
    (hx : x ∈ gatherCandidates ratio idx tn) : ∃ p ∈ idx, x ∈ p.2 := by
  unfold gatherCandidates at hx
  rcases List.mem_append.mp hx with hx | hx
  · match hfind : lookupIdx idx tn with
    | none => rw [hfind] at hx; exact absurd hx (by simp)
    | some bucket =>
      rw [hfind] at hx
      unfold lookupIdx at hfind
      match hf2 : idx.find? fun p => p.1 == tn with
      | none => rw [hf2] at hfind; exact absurd hfind (by simp)
      | some q =>
        rw [hf2] at hfind
        refine ⟨q, List.mem_of_find?_eq_some hf2, ?_⟩
        have : q.2 = bucket := by simpa using hfind
        rw [this]
        exact hx
  · rcases List.mem_flatten.mp hx with ⟨b, hb, hxb⟩
    rcases List.mem_map.mp hb with ⟨p, hp, hpb⟩
    by_cases hcond : p.1 ≠ tn ∧ mkRat 85 100 ≤ ratio tn p.1
    · rw [if_pos hcond] at hpb
      exact ⟨p, hp, hpb ▸ hxb⟩
    · rw [if_neg hcond] at hpb
      rw [← hpb] at hxb
      exact absurd hxb (by simp)

/-- A best match delivered by `bestMatchFor` is a filter track, provided
every index bucket holds filter tracks. -/
theorem bestMatchFor_mem (ratio : String → String → ℚ) (ftracks : List Track)
    (idx : List (String × List Track)) (target : Track)
    (hidx : ∀ p ∈ idx, ∀ x ∈ p.2, x ∈ ftracks)
    (mr : Track × List Reason) (s : Nat)
    (h : bestMatchFor ratio ftracks idx target = (some mr, s)) : mr.1 ∈ ftracks := by
  unfold bestMatchFor at h
  match hhit : isrcIndexHit ftracks (get_isrc target) with
  | some m =>
    rw [hhit] at h
    have hfst : m = mr.1 := by
      have hp := congrArg Prod.fst h
      simp only at hp
      exact congrArg Prod.fst (Option.some.inj hp)
    exact hfst ▸ isrcIndexHit_mem ftracks _ m hhit
  | none =>
    rw [hhit] at h
    rcases foldBestCandidate_mem ratio target _ none 0 mr s h with h2 | h2
    · exact absurd h2 (by simp)
    · rcases gatherCandidates_mem ratio idx _ mr.1 h2 with ⟨p, hp, hmem⟩
      exact hidx p hp mr.1 hmem

/-- Every reported match (duplicate or warning) pairs a target track from
the input list with a filter track. -/
theorem fdawLoop_match_mem (ratio : String → String → ℚ) (ftracks : List Track)
    (idx : List (String × List Track)) (hidx : ∀ p ∈ idx, ∀ x ∈ p.2, x ∈ ftracks) :
    ∀ (ts : List Track) (seen : Finset String),
      (∀ e ∈ (fdawLoop ratio ftracks idx ts seen).1, e.2.1 ∈ ftracks) ∧
      (∀ e ∈ (fdawLoop ratio ftracks idx ts seen).2, e.2.1 ∈ ftracks) := by
  intro ts
  induction ts with
  | nil =>
    intro seen
    refine ⟨?_, ?_⟩ <;> intro e he <;> simp [fdawLoop] at he
  | cons t rest ih =>
    intro seen
    by_cases ht : t.id = ""
    · simp only [fdawLoop, ht, if_true]
      exact ih seen
    · by_cases hs : t.id ∈ seen
      · simp only [fdawLoop, ht, hs, if_false, if_true]
        exact ih seen
      · rcases hbm : bestMatchFor ratio ftracks idx t with ⟨bm, s⟩
        match bm with
        | some mr =>
          have hmr : mr.1 ∈ ftracks := bestMatchFor_mem ratio ftracks idx t hidx mr s hbm
          by_cases h80 : 80 ≤ s
          · simp only [fdawLoop, ht, hs, hbm, h80, if_false, if_true]
            refine ⟨fun e he => ?_, (ih (insert t.id seen)).2⟩
            rcases List.mem_cons.mp he with he | he
            · subst he
              exact hmr
            · exact (ih (insert t.id seen)).1 e he
          · by_cases h40 : 40 ≤ s
            · simp only [fdawLoop, ht, hs, hbm, h80, h40, if_false, if_true]
              refine ⟨(ih seen).1, fun e he => ?_⟩
              rcases List.mem_cons.mp he with he | he
              · subst he
                exact hmr
              · exact (ih seen).2 e he
            · simp only [fdawLoop, ht, hs, hbm, h80, h40, if_false]
              exact ih seen
        | none =>
          simp only [fdawLoop, ht, hs, hbm, if_false]
          exact ih seen

/-- C7, amended.  In the title-scoring path a same-id candidate is always
skipped, but the ISRC fast path has no id check; therefore the matched
track's id differs from the target's whenever no filter track shares an id
with any target track — which the pipeline guarantees at its only call
site, because targets with an id present in the filter are removed as
exact matches before the fuzzy step. -/
theorem matched_track_id_ne (ratio : String → String → ℚ)
    (targets filters : List Track)
    (hdisj : ∀ t ∈ targets, ∀ f ∈ filters, t.id ≠ f.id) :
    (∀ e ∈ (find_duplicates_and_warnings ratio targets filters).1,
      e.2.1.id ≠ e.1.id) ∧
    (∀ e ∈ (find_duplicates_and_warnings ratio targets filters).2,
      e.2.1.id ≠ e.1.id) := by
  have hidx := buildTitleIndex_mem filters
  have hmm := fdawLoop_match_mem ratio filters (buildTitleIndex filters) hidx targets ∅
  have hspec := fdawLoop_spec ratio filters (buildTitleIndex filters) targets ∅
  constructor
  · intro e he
    exact fun heq => hdisj e.1 ((hspec.1 e he).2) e.2.1 (hmm.1 e he) heq.symm
  · intro e he
    exact fun heq => hdisj e.1 ((hspec.2 e he).2.2) e.2.1 (hmm.2 e he) heq.symm

/-- Witness for the amended C7 at a concrete disjoint-id run that produces
a duplicate. -/
theorem matched_track_id_ne_witness :
    (∀ e ∈ (find_duplicates_and_warnings (fun _ _ => 0)
        [⟨"t1", "aa", some 200000, [⟨some "a1", "A"⟩], none⟩]
        [⟨"f1", "aa", some 200000, [⟨some "a1", "A"⟩], none⟩]).1,
      e.2.1.id ≠ e.1.id) ∧
    (∀ e ∈ (find_duplicates_and_warnings (fun _ _ => 0)
        [⟨"t1", "aa", some 200000, [⟨some "a1", "A"⟩], none⟩]
        [⟨"f1", "aa", some 200000, [⟨some "a1", "A"⟩], none⟩]).2,
      e.2.1.id ≠ e.1.id) :=
  matched_track_id_ne (fun _ _ => 0)
    [⟨"t1", "aa", some 200000, [⟨some "a1", "A"⟩], none⟩]
    [⟨"f1", "aa", some 200000, [⟨some "a1", "A"⟩], none⟩]
    (by decide)

/-! ## Claim C2: the removal plan is a disjoint union of the four
categories.  The lemmas below establish, step by step, that each category
list has pairwise-distinct ids, that the four categories claim pairwise
disjoint id sets, and that `tracks_to_remove_ids` is exactly their union
with one `removal_details` entry per id. -/

/-- Invariants of the availability split (step 4): unavailable entries are
deduplicated unavailable-id targets, available entries are targets whose id
is not unavailable. -/
theorem availSplit_spec (unavailableIds : Finset String) :
    ∀ (ts : List Track) (seen : Finset String),
      (∀ t ∈ (availSplit unavailableIds ts seen).1,
        t.id ∈ unavailableIds ∧ t.id ∉ seen ∧ t ∈ ts) ∧
      (((availSplit unavailableIds ts seen).1.map Track.id).Nodup) ∧
      (∀ t ∈ (availSplit unavailableIds ts seen).2, t.id ∉ unavailableIds ∧ t ∈ ts) := by
  intro ts
  induction ts with
  | nil =>
    intro seen
    refine ⟨?_, by simp [availSplit], ?_⟩ <;> intro t ht <;> simp [availSplit] at ht
  | cons c rest ih =>
    intro seen
    by_cases hu : c.id ∈ unavailableIds
    · by_cases hs : c.id ∈ seen
      · have heq : availSplit unavailableIds (c :: rest) seen =
            availSplit unavailableIds rest seen := by
          simp only [availSplit, hu, hs, if_true]
        rw [heq]
        refine ⟨fun t ht => ?_, (ih seen).2.1, fun t ht => ?_⟩
        · have := (ih seen).1 t ht
          exact ⟨this.1, this.2.1, List.mem_cons_of_mem c this.2.2⟩
        · have := (ih seen).2.2 t ht
          exact ⟨this.1, List.mem_cons_of_mem c this.2⟩
      · have heq : availSplit unavailableIds (c :: rest) seen =
            (c :: (availSplit unavailableIds rest (insert c.id seen)).1,
             (availSplit unavailableIds rest (insert c.id seen)).2) := by
          simp only [availSplit, hu, hs, if_true, if_false]
        rw [heq]
        refine ⟨fun t ht => ?_, ?_, fun t ht => ?_⟩
        · rcases List.mem_cons.mp ht with ht | ht
          · rw [ht]
            exact ⟨hu, hs, List.mem_cons_self c rest⟩
          · have := (ih (insert c.id seen)).1 t ht
            exact ⟨this.1, fun hmem => this.2.1 (Finset.mem_insert_of_mem hmem),
              List.mem_cons_of_mem c this.2.2⟩
        · rw [List.map_cons, List.nodup_cons]
          refine ⟨fun hmem => ?_, (ih (insert c.id seen)).2.1⟩
          rcases List.mem_map.mp hmem with ⟨t, ht, hteq⟩
          exact ((ih (insert c.id seen)).1 t ht).2.1 (hteq ▸ Finset.mem_insert_self c.id seen)
        · have := (ih (insert c.id seen)).2.2 t ht
          exact ⟨this.1, List.mem_cons_of_mem c this.2⟩
    · have heq : availSplit unavailableIds (c :: rest) seen =
          ((availSplit unavailableIds rest seen).1,
           c :: (availSplit unavailableIds rest seen).2) := by
        simp only [availSplit, hu, if_false]
      rw [heq]
      refine ⟨fun t ht => ?_, (ih seen).2.1, fun t ht => ?_⟩
      · have := (ih seen).1 t ht
        exact ⟨this.1, this.2.1, List.mem_cons_of_mem c this.2.2⟩
      · rcases List.mem_cons.mp ht with ht | ht
        · rw [ht]
          exact ⟨hu, List.mem_cons_self c rest⟩
        · have := (ih seen).2.2 t ht
          exact ⟨this.1, List.mem_cons_of_mem c this.2⟩

/-- Invariants of the exact-match pass (step 6): results are deduplicated
targets whose id lies in the filter id set. -/
theorem exactMatchLoop_spec (filterIds : Finset String) :
    ∀ (ts : List Track) (seen : Finset String),
      (∀ t ∈ exactMatchLoop filterIds ts seen,
        t.id ∈ filterIds ∧ t.id ∉ seen ∧ t ∈ ts) ∧
      ((exactMatchLoop filterIds ts seen).map Track.id).Nodup := by
  intro ts
  induction ts with
  | nil =>
    intro seen
    exact ⟨fun t ht => by simp [exactMatchLoop] at ht, by simp [exactMatchLoop]⟩
  | cons c rest ih =>
    intro seen
    by_cases hf : c.id ∈ filterIds
    · by_cases hs : c.id ∈ seen
      · have heq : exactMatchLoop filterIds (c :: rest) seen =
            exactMatchLoop filterIds rest seen := by
          simp only [exactMatchLoop, hf, hs, if_true]
        rw [heq]
        refine ⟨fun t ht => ?_, (ih seen).2⟩
        have := (ih seen).1 t ht
        exact ⟨this.1, this.2.1, List.mem_cons_of_mem c this.2.2⟩
      · have heq : exactMatchLoop filterIds (c :: rest) seen =
            c :: exactMatchLoop filterIds rest (insert c.id seen) := by
          simp only [exactMatchLoop, hf, hs, if_true, if_false]
        rw [heq]
        refine ⟨fun t ht => ?_, ?_⟩
        · rcases List.mem_cons.mp ht with ht | ht
          · rw [ht]
            exact ⟨hf, hs, List.mem_cons_self c rest⟩
          · have := (ih (insert c.id seen)).1 t ht
            exact ⟨this.1, fun hmem => this.2.1 (Finset.mem_insert_of_mem hmem),
              List.mem_cons_of_mem c this.2.2⟩
        · rw [List.map_cons, List.nodup_cons]
          refine ⟨fun hmem => ?_, (ih (insert c.id seen)).2⟩
          rcases List.mem_map.mp hmem with ⟨t, ht, hteq⟩
          exact ((ih (insert c.id seen)).1 t ht).2.1 (hteq ▸ Finset.mem_insert_self c.id seen)
    · have heq : exactMatchLoop filterIds (c :: rest) seen =
          exactMatchLoop filterIds rest seen := by
        simp only [exactMatchLoop, hf, if_false]
      rw [heq]
      refine ⟨fun t ht => ?_, (ih seen).2⟩
      have := (ih seen).1 t ht
      exact ⟨this.1, this.2.1, List.mem_cons_of_mem c this.2.2⟩

/-- Invariants of the id-deduplication pass (step 7). -/
theorem dedupById_spec :
    ∀ (ts : List Track) (seen : Finset String),
      (∀ t ∈ dedupById ts seen, t ∈ ts ∧ t.id ∉ seen) ∧
      ((dedupById ts seen).map Track.id).Nodup := by
  intro ts
  induction ts with
  | nil =>
    intro seen
    exact ⟨fun t ht => by simp [dedupById] at ht, by simp [dedupById]⟩
  | cons c rest ih =>
    intro seen
    by_cases hs : c.id ∈ seen
    · have heq : dedupById (c :: rest) seen = dedupById rest seen := by
        simp only [dedupById, hs, if_true]
      rw [heq]
      refine ⟨fun t ht => ?_, (ih seen).2⟩
      have := (ih seen).1 t ht
      exact ⟨List.mem_cons_of_mem c this.1, this.2⟩
    · have heq : dedupById (c :: rest) seen = c :: dedupById rest (insert c.id seen) := by
        simp only [dedupById, hs, if_false]
      rw [heq]
      refine ⟨fun t ht => ?_, ?_⟩
      · rcases List.mem_cons.mp ht with ht | ht
        · rw [ht]
          exact ⟨List.mem_cons_self c rest, hs⟩
        · have := (ih (insert c.id seen)).1 t ht
          exact ⟨List.mem_cons_of_mem c this.1,
            fun hmem => this.2 (Finset.mem_insert_of_mem hmem)⟩
      · rw [List.map_cons, List.nodup_cons]
        refine ⟨fun hmem => ?_, (ih (insert c.id seen)).2⟩
        rcases List.mem_map.mp hmem with ⟨t, ht, hteq⟩
        exact ((ih (insert c.id seen)).1 t ht).2 (hteq ▸ Finset.mem_insert_self c.id seen)

/-- Every track in a `by_isrc` bucket comes from the indexed list. -/
theorem buildIsrcIndex_mem (tracks : List Track) :
    ∀ p ∈ buildIsrcIndex tracks, ∀ x ∈ p.2, x ∈ tracks := by
  have H : ∀ (l : List Track) (idx0 : List (String × List Track)) (P : Track → Prop),
      (∀ p ∈ idx0, ∀ x ∈ p.2, P x) → (∀ t ∈ l, P t) →
      ∀ p ∈ l.foldl (fun idx track =>
          match get_isrc track with
          | some i => if i = "" then idx else addToIdx idx i track
          | none => idx) idx0,
        ∀ x ∈ p.2, P x := by
    intro l
    induction l with
    | nil => intro idx0 P h0 _ p hp x hx; exact h0 p hp x hx
    | cons t rest ih =>
      intro idx0 P h0 hl p hp x hx
      rw [List.foldl_cons] at hp
      refine ih _ P ?_ (fun u hu => hl u (List.mem_cons_of_mem t hu)) p hp x hx
      intro q hq y hy
      match hisrc : get_isrc t with
      | none =>
        simp only [hisrc] at hq
        exact h0 q hq y hy
      | some i =>
        simp only [hisrc] at hq
        by_cases hi : i = ""
        · rw [if_pos hi] at hq
          exact h0 q hq y hy
        · rw [if_neg hi] at hq
          rcases addToIdx_mem idx0 i t q hq y hy with ⟨r, hr, hyr⟩ | hyt
          · exact h0 r hr y hyr
          · exact hyt ▸ hl t (List.mem_cons_self t rest)
  intro p hp x hx
  exact H tracks [] (· ∈ tracks) (by simp) (fun t ht => ht) p hp x hx

theorem isrcGroupLoop_inv (tracks : List Track) (original : Track) :
    ∀ (ds : List Track) (st : InternalState), (∀ d ∈ ds, d ∈ tracks) →
      InternalInv tracks st → InternalInv tracks (isrcGroupLoop original ds st) := by
  intro ds
  induction ds with
  | nil => intro st _ h; exact h
  | cons d rest ih =>
    intro st hds hinv
    rcases st with ⟨res, dom⟩
    by_cases hd : d.id ∈ dom
    · have heq : isrcGroupLoop original (d :: rest) (res, dom) =
          isrcGroupLoop original rest (res, dom) := by
        simp only [isrcGroupLoop, hd, if_true]
      rw [heq]
      exact ih (res, dom) (fun u hu => hds u (List.mem_cons_of_mem d hu)) hinv
    · have heq : isrcGroupLoop original (d :: rest) (res, dom) =
          isrcGroupLoop original rest
            (res ++ [(d, original, 100, [Reason.sameIsrc])], insert d.id dom) := by
        simp only [isrcGroupLoop, hd, if_false]
      rw [heq]
      refine ih _ (fun u hu => hds u (List.mem_cons_of_mem d hu)) ⟨?_, ?_⟩
      · rw [List.map_append, List.map_singleton]
        refine List.Nodup.append hinv.1 (List.nodup_singleton _) ?_
        intro x hx hx2
        rw [List.mem_singleton.mp hx2] at hx
        rcases List.mem_map.mp hx with ⟨e, he, heq2⟩
        exact hd (heq2 ▸ (hinv.2 e he).1)
      · intro e he
        rcases List.mem_append.mp he with he | he
        · exact ⟨Finset.mem_insert_of_mem (hinv.2 e he).1, (hinv.2 e he).2⟩
        · rw [List.mem_singleton.mp he]
          exact ⟨Finset.mem_insert_self d.id dom, hds d (List.mem_cons_self d rest)⟩

theorem isrcPhase_inv (tracks : List Track) :
    ∀ (groups : List (String × List Track)) (st : InternalState),
      (∀ g ∈ groups, ∀ d ∈ g.2, d ∈ tracks) →
      InternalInv tracks st → InternalInv tracks (isrcPhase groups st) := by
  intro groups
  induction groups with
  | nil => intro st _ h; exact h
  | cons g rest ih =>
    intro st hg hinv
    rcases g with ⟨k, group⟩
    by_cases hlen : group.length ≤ 1
    · have heq : isrcPhase ((k, group) :: rest) st = isrcPhase rest st := by
        match group with
        | [] => simp only [isrcPhase, List.length_nil, if_true, Nat.zero_le]
        | [x] => simp only [isrcPhase, List.length_cons, List.length_nil, if_true, le_refl]
        | x :: y :: zs => simp at hlen
      rw [heq]
      exact ih st (fun u hu => hg u (List.mem_cons_of_mem _ hu)) hinv
    · match group with
      | [] => simp at hlen
      | original :: dups =>
        have heq : isrcPhase ((k, original :: dups) :: rest) st =
            isrcPhase rest (isrcGroupLoop original dups st) := by
          simp only [isrcPhase, if_neg hlen]
        rw [heq]
        refine ih _ (fun u hu => hg u (List.mem_cons_of_mem _ hu)) ?_
        refine isrcGroupLoop_inv tracks original dups st ?_ hinv
        intro d hd
        exact hg (k, original :: dups) (List.mem_cons_self _ rest) d
          (List.mem_cons_of_mem original hd)

theorem pairInner_inv (tracks : List Track) (ratio : String → String → ℚ) (t1 : Track) :
    ∀ (ts : List Track) (st : InternalState), (∀ d ∈ ts, d ∈ tracks) →
      InternalInv tracks st → InternalInv tracks (pairInner ratio t1 ts st) := by
  intro ts
  induction ts with
  | nil => intro st _ h; exact h
  | cons t2 rest ih =>
    intro st hts hinv
    rcases st with ⟨res, dom⟩
    by_cases hd : t2.id ∈ dom
    · have heq : pairInner ratio t1 (t2 :: rest) (res, dom) =
          pairInner ratio t1 rest (res, dom) := by
        simp only [pairInner, hd, if_true]
      rw [heq]
      exact ih (res, dom) (fun u hu => hts u (List.mem_cons_of_mem t2 hu)) hinv
    · by_cases hid : t1.id = t2.id
      · have heq : pairInner ratio t1 (t2 :: rest) (res, dom) =
            pairInner ratio t1 rest (res, dom) := by
          simp only [pairInner, hd, hid, if_true, if_false]
        rw [heq]
        exact ih (res, dom) (fun u hu => hts u (List.mem_cons_of_mem t2 hu)) hinv
      · by_cases h80 : 80 ≤ (calculate_similarity_score ratio t1 t2).1
        · have heq : pairInner ratio t1 (t2 :: rest) (res, dom) =
              pairInner ratio t1 rest
                (res ++ [(t2, t1, (calculate_similarity_score ratio t1 t2).1,
                  (calculate_similarity_score ratio t1 t2).2)], insert t2.id dom) := by
            simp only [pairInner, hd, hid, h80, if_true, if_false]
          rw [heq]
          refine ih _ (fun u hu => hts u (List.mem_cons_of_mem t2 hu)) ⟨?_, ?_⟩
          · rw [List.map_append, List.map_singleton]
            refine List.Nodup.append hinv.1 (List.nodup_singleton _) ?_
            intro x hx hx2
            rw [List.mem_singleton.mp hx2] at hx
            rcases List.mem_map.mp hx with ⟨e, he, heq2⟩
            exact hd (heq2 ▸ (hinv.2 e he).1)
          · intro e he
            rcases List.mem_append.mp he with he | he
            · exact ⟨Finset.mem_insert_of_mem (hinv.2 e he).1, (hinv.2 e he).2⟩
            · rw [List.mem_singleton.mp he]
              exact ⟨Finset.mem_insert_self t2.id dom,
                hts t2 (List.mem_cons_self t2 rest)⟩
        · have heq : pairInner ratio t1 (t2 :: rest) (res, dom) =
              pairInner ratio t1 rest (res, dom) := by
            simp only [pairInner, hd, hid, h80, if_true, if_false]
          rw [heq]
          exact ih (res, dom) (fun u hu => hts u (List.mem_cons_of_mem t2 hu)) hinv

theorem pairOuter_inv (tracks : List Track) (ratio : String → String → ℚ) :
    ∀ (ts : List Track) (st : InternalState), (∀ d ∈ ts, d ∈ tracks) →
      InternalInv tracks st → InternalInv tracks (pairOuter ratio ts st) := by
  intro ts
  induction ts with
  | nil => intro st _ h; exact h
  | cons t1 rest ih =>
    intro st hts hinv
    rcases st with ⟨res, dom⟩
    by_cases hd : t1.id ∈ dom
    · have heq : pairOuter ratio (t1 :: rest) (res, dom) =
          pairOuter ratio rest (res, dom) := by
        simp only [pairOuter, hd, if_true]
      rw [heq]
      exact ih (res, dom) (fun u hu => hts u (List.mem_cons_of_mem t1 hu)) hinv
    · have heq : pairOuter ratio (t1 :: rest) (res, dom) =
          pairOuter ratio rest (pairInner ratio t1 rest (res, dom)) := by
        simp only [pairOuter, hd, if_false]
      rw [heq]
      refine ih _ (fun u hu => hts u (List.mem_cons_of_mem t1 hu)) ?_
      exact pairInner_inv tracks ratio t1 rest (res, dom)
        (fun u hu => hts u (List.mem_cons_of_mem t1 hu)) hinv

theorem titlePhase_inv (tracks : List Track) (ratio : String → String → ℚ) :
    ∀ (groups : List (String × List Track)) (st : InternalState),
      (∀ g ∈ groups, ∀ d ∈ g.2, d ∈ tracks) →
      InternalInv tracks st → InternalInv tracks (titlePhase ratio groups st) := by
  intro groups
  induction groups with
  | nil => intro st _ h; exact h
  | cons g rest ih =>
    intro st hg hinv
    rcases g with ⟨k, group⟩
    by_cases hlen : group.length ≤ 1
    · have heq : titlePhase ratio ((k, group) :: rest) st = titlePhase ratio rest st := by
        simp only [titlePhase, if_pos hlen]
      rw [heq]
      exact ih st (fun u hu => hg u (List.mem_cons_of_mem _ hu)) hinv
    · have heq : titlePhase ratio ((k, group) :: rest) st =
          titlePhase ratio rest (pairOuter ratio group st) := by
        simp only [titlePhase, if_neg hlen]
      rw [heq]
      refine ih _ (fun u hu => hg u (List.mem_cons_of_mem _ hu)) ?_
      exact pairOuter_inv tracks ratio group st
        (fun d hd => hg (k, group) (List.mem_cons_self _ rest) d hd) hinv

/-- Summary invariant for `find_internal_duplicates`: the removed tracks
have pairwise distinct ids and come from the input list. -/
theorem find_internal_duplicates_spec (ratio : String → String → ℚ)
    (tracks : List Track) :
    ((find_internal_duplicates ratio tracks).map fun e => e.1.id).Nodup ∧
    ∀ e ∈ find_internal_duplicates ratio tracks, e.1 ∈ tracks := by
  have hvalid : ∀ t ∈ tracks.filter (fun t => t.id ≠ ""), t ∈ tracks :=
    fun t ht => List.mem_of_mem_filter ht
  have h1 : InternalInv tracks
      (isrcPhase (buildIsrcIndex (tracks.filter fun t => t.id ≠ "")) ([], ∅)) := by
    refine isrcPhase_inv tracks _ ([], ∅) ?_ ⟨by simp, by simp⟩
    intro g hg d hd
    exact hvalid d (buildIsrcIndex_mem _ g hg d hd)
  have h2 : InternalInv tracks
      (titlePhase ratio (buildTitleIndex (tracks.filter fun t => t.id ≠ ""))
        (isrcPhase (buildIsrcIndex (tracks.filter fun t => t.id ≠ "")) ([], ∅))) := by
    refine titlePhase_inv tracks ratio _ _ ?_ h1
    intro g hg d hd
    exact hvalid d (buildTitleIndex_mem _ g hg d hd)
  exact ⟨h2.1, fun e he => (h2.2 e he).2⟩

/-- Folding `insert` over a list of ids starting from `s` yields `s` union
the list's id set (the Python `set.add` loop of step 10). -/
theorem foldl_insert_eq_toFinset (l : List String) :
    ∀ s : Finset String, l.foldl (fun acc x => insert x acc) s = s ∪ l.toFinset := by
  induction l with
  | nil => intro s; simp
  | cons a l ih =>
    intro s
    rw [List.foldl_cons, ih]
    ext x
    simp only [Finset.mem_union, Finset.mem_insert, List.toFinset_cons, List.mem_toFinset]
    tauto

/-- The removal-details id sequence is the concatenation of the four
category id sequences (fuzzy and internal in score-sorted order). -/
theorem removalDetails_ids (u e : List Track) (f i : List MatchEntry) :
    (removalDetails u e f i).map (fun d => d.track.id) =
      ((u.map Track.id ++ e.map Track.id) ++
        ((sortByScoreDesc f).map fun x => x.1.id)) ++
        ((sortByScoreDesc i).map fun x => x.1.id) := by
  simp only [removalDetails, List.map_append, List.map_map]
  rfl

/-- Two lists each disjoint from `l` concatenate to a list disjoint from
`l`. -/
theorem disjoint_append_of {α : Type} {l₁ l₂ l : List α}
    (h1 : l₁.Disjoint l) (h2 : l₂.Disjoint l) : (l₁ ++ l₂).Disjoint l := by
  intro a ha hb
  rcases List.mem_append.mp ha with h | h
  · exact h1 h hb
  · exact h2 h hb

/-- Permuted lists have the same `toFinset`. -/
theorem perm_toFinset {l l2 : List String} (p : l.Perm l2) : l.toFinset = l2.toFinset := by
  ext x
  simp [List.mem_toFinset, p.mem_iff]

/-- Generic form of the step-10 compilation property: when the four
category lists have pairwise-distinct ids within each list and pairwise
disjoint id sets across lists, the compiled details mention each claimed id
exactly once and the removal id set is exactly the union of the four
category id sets. -/
theorem removal_compile_spec (u e : List Track) (f i : List MatchEntry)
    (hu : (u.map Track.id).Nodup) (he : (e.map Track.id).Nodup)
    (hf : (f.map fun x => x.1.id).Nodup) (hi : (i.map fun x => x.1.id).Nodup)
    (hue : (u.map Track.id).Disjoint (e.map Track.id))
    (huf : (u.map Track.id).Disjoint (f.map fun x => x.1.id))
    (hui : (u.map Track.id).Disjoint (i.map fun x => x.1.id))
    (hef : (e.map Track.id).Disjoint (f.map fun x => x.1.id))
    (hei : (e.map Track.id).Disjoint (i.map fun x => x.1.id))
    (hfi : (f.map fun x => x.1.id).Disjoint (i.map fun x => x.1.id)) :
    ((removalDetails u e f i).map fun d => d.track.id).Nodup ∧
    tracksToRemoveIds u e f i =
      (u.map Track.id).toFinset ∪ (e.map Track.id).toFinset ∪
      ((f.map fun x => x.1.id)).toFinset ∪ ((i.map fun x => x.1.id)).toFinset ∧
    ∀ s ∈ tracksToRemoveIds u e f i,
      ((removalDetails u e f i).map fun d => d.track.id).count s = 1 := by
  have pf : ((sortByScoreDesc f).map fun x : MatchEntry => x.1.id).Perm
      (f.map fun x => x.1.id) :=
    List.Perm.map _ (List.mergeSort_perm f _)
  have pi : ((sortByScoreDesc i).map fun x : MatchEntry => x.1.id).Perm
      (i.map fun x => x.1.id) :=
    List.Perm.map _ (List.mergeSort_perm i _)
  have hfS : ((sortByScoreDesc f).map fun x : MatchEntry => x.1.id).Nodup :=
    pf.nodup_iff.mpr hf
  have hiS : ((sortByScoreDesc i).map fun x : MatchEntry => x.1.id).Nodup :=
    pi.nodup_iff.mpr hi
  have hufS : (u.map Track.id).Disjoint ((sortByScoreDesc f).map fun x : MatchEntry => x.1.id) :=
    fun a ha hb => huf ha (pf.mem_iff.mp hb)
  have hefS : (e.map Track.id).Disjoint ((sortByScoreDesc f).map fun x : MatchEntry => x.1.id) :=
    fun a ha hb => hef ha (pf.mem_iff.mp hb)
  have huiS : (u.map Track.id).Disjoint ((sortByScoreDesc i).map fun x : MatchEntry => x.1.id) :=
    fun a ha hb => hui ha (pi.mem_iff.mp hb)
  have heiS : (e.map Track.id).Disjoint ((sortByScoreDesc i).map fun x : MatchEntry => x.1.id) :=
    fun a ha hb => hei ha (pi.mem_iff.mp hb)
  have hfiS : ((sortByScoreDesc f).map fun x : MatchEntry => x.1.id).Disjoint
      ((sortByScoreDesc i).map fun x : MatchEntry => x.1.id) :=
    fun a ha hb => hfi (pf.mem_iff.mp ha) (pi.mem_iff.mp hb)
  have hnodup : ((removalDetails u e f i).map fun d => d.track.id).Nodup := by
    rw [removalDetails_ids]
    refine List.Nodup.append (List.Nodup.append (List.Nodup.append hu he hue) hfS ?_)
      hiS ?_
    · exact disjoint_append_of hufS hefS
    · exact disjoint_append_of (disjoint_append_of huiS heiS) hfiS
  have hremove : tracksToRemoveIds u e f i =
      ((removalDetails u e f i).map fun d => d.track.id).toFinset := by
    unfold tracksToRemoveIds
    rw [foldl_insert_eq_toFinset]
    exact Finset.empty_union _
  refine ⟨hnodup, ?_, ?_⟩
  · rw [hremove, removalDetails_ids]
    simp only [List.toFinset_append]
    rw [perm_toFinset pf, perm_toFinset pi]
  · intro s hs
    rw [hremove] at hs
    exact List.count_eq_one_of_mem hnodup (List.mem_toFinset.mp hs)

/-- C2.  For every run of the planning pipeline, the final removal id set
is exactly the union of the unavailable, exact-match, fuzzy-duplicate and
internal-duplicate id sets, the `removal_details` entries carry pairwise
distinct track ids, and every id in the removal set appears in exactly one
detail entry — hence in exactly one reported category. -/
theorem removal_plan_partition (ratio : String → String → ℚ) (targetTracks : List Track)
    (unavailableIds : Finset String) (allFilterTracks : List Track) :
    (runPlan ratio targetTracks unavailableIds allFilterTracks).removeIds =
      (((runPlan ratio targetTracks unavailableIds allFilterTracks).unavailableTracks.map
          Track.id).toFinset ∪
       ((runPlan ratio targetTracks unavailableIds allFilterTracks).exactMatches.map
          Track.id).toFinset ∪
       ((runPlan ratio targetTracks unavailableIds allFilterTracks).fuzzyDuplicates.map
          fun x => x.1.id).toFinset ∪
       ((runPlan ratio targetTracks unavailableIds allFilterTracks).internalDuplicates.map
          fun x => x.1.id).toFinset) ∧
    (((runPlan ratio targetTracks unavailableIds allFilterTracks).details.map
        fun d => d.track.id).Nodup) ∧
    ∀ s ∈ (runPlan ratio targetTracks unavailableIds allFilterTracks).removeIds,
      ((runPlan ratio targetTracks unavailableIds allFilterTracks).details.map
        fun d => d.track.id).count s = 1 := by
  have h_u_nodup : ((unavailableTracksOf unavailableIds targetTracks).map Track.id).Nodup :=
    (availSplit_spec unavailableIds targetTracks ∅).2.1
  have h_e_nodup : ((exactMatchesOf unavailableIds targetTracks allFilterTracks).map
      Track.id).Nodup :=
    (exactMatchLoop_spec (allFilterSongIds allFilterTracks)
      (availableTargetTracksOf unavailableIds targetTracks) ∅).2
  have h_tfz_nodup : ((tracksForFuzzyOf unavailableIds targetTracks allFilterTracks).map
      Track.id).Nodup :=
    List.Nodup.sublist
      (List.Sublist.map Track.id (List.filter_sublist _))
      (dedupById_spec (availableTargetTracksOf unavailableIds targetTracks) ∅).2
  have h_f_nodup : ((fuzzyDuplicatesOf ratio unavailableIds targetTracks allFilterTracks).map
      fun x => x.1.id).Nodup :=
    (fdawLoop_nodup_disjoint ratio allFilterTracks (buildTitleIndex allFilterTracks)
      (tracksForFuzzyOf unavailableIds targetTracks allFilterTracks) ∅ h_tfz_nodup).1
  have h_i_nodup : ((internalDuplicatesOf ratio unavailableIds targetTracks
      allFilterTracks).map fun x => x.1.id).Nodup :=
    (find_internal_duplicates_spec ratio
      (remainingAfterFuzzyOf ratio unavailableIds targetTracks allFilterTracks)).1
  -- membership facts
  have hm_u : ∀ t ∈ unavailableTracksOf unavailableIds targetTracks,
      t.id ∈ unavailableIds :=
    fun t ht => ((availSplit_spec unavailableIds targetTracks ∅).1 t ht).1
  have hm_a : ∀ t ∈ availableTargetTracksOf unavailableIds targetTracks,
      t.id ∉ unavailableIds :=
    fun t ht => ((availSplit_spec unavailableIds targetTracks ∅).2.2 t ht).1
  have hm_e : ∀ t ∈ exactMatchesOf unavailableIds targetTracks allFilterTracks,
      t ∈ availableTargetTracksOf unavailableIds targetTracks :=
    fun t ht => ((exactMatchLoop_spec (allFilterSongIds allFilterTracks)
      (availableTargetTracksOf unavailableIds targetTracks) ∅).1 t ht).2.2
  have hm_tfz : ∀ t ∈ tracksForFuzzyOf unavailableIds targetTracks allFilterTracks,
      t ∈ availableTargetTracksOf unavailableIds targetTracks ∧
      t.id ∉ exactMatchIdsOf unavailableIds targetTracks allFilterTracks := by
    intro t ht
    have h2 := List.mem_filter.mp ht
    refine ⟨((dedupById_spec (availableTargetTracksOf unavailableIds targetTracks) ∅).1
      t h2.1).1, ?_⟩
    simpa using h2.2
  have hm_f : ∀ x ∈ fuzzyDuplicatesOf ratio unavailableIds targetTracks allFilterTracks,
      x.1 ∈ tracksForFuzzyOf unavailableIds targetTracks allFilterTracks :=
    fun x hx => ((fdawLoop_spec ratio allFilterTracks (buildTitleIndex allFilterTracks)
      (tracksForFuzzyOf unavailableIds targetTracks allFilterTracks) ∅).1 x hx).2
  have hm_rem : ∀ t ∈ remainingAfterFuzzyOf ratio unavailableIds targetTracks
      allFilterTracks,
      t ∈ tracksForFuzzyOf unavailableIds targetTracks allFilterTracks ∧
      t.id ∉ fuzzyDupIdsOf ratio unavailableIds targetTracks allFilterTracks := by
    intro t ht
    have h2 := List.mem_filter.mp ht
    exact ⟨h2.1, by simpa using h2.2⟩
  have hm_i : ∀ x ∈ internalDuplicatesOf ratio unavailableIds targetTracks allFilterTracks,
      x.1 ∈ remainingAfterFuzzyOf ratio unavailableIds targetTracks allFilterTracks :=
    (find_internal_duplicates_spec ratio
      (remainingAfterFuzzyOf ratio unavailableIds targetTracks allFilterTracks)).2
  -- pairwise disjointness of the four category id lists
  have d_ue : ((unavailableTracksOf unavailableIds targetTracks).map Track.id).Disjoint
      ((exactMatchesOf unavailableIds targetTracks allFilterTracks).map Track.id) := by
    intro a ha hb
    rcases List.mem_map.mp ha with ⟨tu, htu, hae⟩
    rcases List.mem_map.mp hb with ⟨te, hte, hbe⟩
    exact hm_a te (hm_e te hte) (hbe ▸ (hae ▸ hm_u tu htu))
  have d_uf : ((unavailableTracksOf unavailableIds targetTracks).map Track.id).Disjoint
      ((fuzzyDuplicatesOf ratio unavailableIds targetTracks allFilterTracks).map
        fun x => x.1.id) := by
    intro a ha hb
    rcases List.mem_map.mp ha with ⟨tu, htu, hae⟩
    rcases List.mem_map.mp hb with ⟨x, hx, hbe⟩
    exact hm_a x.1 ((hm_tfz x.1 (hm_f x hx)).1) (hbe ▸ (hae ▸ hm_u tu htu))
  have d_ui : ((unavailableTracksOf unavailableIds targetTracks).map Track.id).Disjoint
      ((internalDuplicatesOf ratio unavailableIds targetTracks allFilterTracks).map
        fun x => x.1.id) := by
    intro a ha hb
    rcases List.mem_map.mp ha with ⟨tu, htu, hae⟩
    rcases List.mem_map.mp hb with ⟨x, hx, hbe⟩
    exact hm_a x.1 ((hm_tfz x.1 (hm_rem x.1 (hm_i x hx)).1).1) (hbe ▸ (hae ▸ hm_u tu htu))
  have d_ef : ((exactMatchesOf unavailableIds targetTracks allFilterTracks).map
      Track.id).Disjoint
      ((fuzzyDuplicatesOf ratio unavailableIds targetTracks allFilterTracks).map
        fun x => x.1.id) := by
    intro a ha hb
    rcases List.mem_map.mp hb with ⟨x, hx, hbe⟩
    refine (hm_tfz x.1 (hm_f x hx)).2 ?_
    rw [hbe]
    exact List.mem_toFinset.mpr ha
  have d_ei : ((exactMatchesOf unavailableIds targetTracks allFilterTracks).map
      Track.id).Disjoint
      ((internalDuplicatesOf ratio unavailableIds targetTracks allFilterTracks).map
        fun x => x.1.id) := by
    intro a ha hb
    rcases List.mem_map.mp hb with ⟨x, hx, hbe⟩
    refine (hm_tfz x.1 (hm_rem x.1 (hm_i x hx)).1).2 ?_
    rw [hbe]
    exact List.mem_toFinset.mpr ha
  have d_fi : ((fuzzyDuplicatesOf ratio unavailableIds targetTracks allFilterTracks).map
      fun x => x.1.id).Disjoint
      ((internalDuplicatesOf ratio unavailableIds targetTracks allFilterTracks).map
        fun x => x.1.id) := by
    intro a ha hb
    rcases List.mem_map.mp hb with ⟨x, hx, hbe⟩
    refine (hm_rem x.1 (hm_i x hx)).2 ?_
    rw [hbe]
    exact List.mem_toFinset.mpr ha
  have H := removal_compile_spec (unavailableTracksOf unavailableIds targetTracks)
    (exactMatchesOf unavailableIds targetTracks allFilterTracks)
    (fuzzyDuplicatesOf ratio unavailableIds targetTracks allFilterTracks)
    (internalDuplicatesOf ratio unavailableIds targetTracks allFilterTracks)
    h_u_nodup h_e_nodup h_f_nodup h_i_nodup d_ue d_uf d_ui d_ef d_ei d_fi
  exact ⟨H.2.1, H.1, H.2.2⟩

end SpotifyFilterer
